import Mathlib

/-!
Shallow embedding of the gocpio repository (package cpio):
  - src/headers.go   : the Header data model and encoding tags
  - src/writer.go    : the archive Writer (Close/Flush/Write/WriteHeader and
                       the three serialization paths)
  - src/reader.go    : the archive Reader (Next/Read and the decoding paths)
  - src/unnamed/part_000 : a second copy of the reader with a differing
                       nextName / numeric-field parsing implementation

Byte streams are `List Nat` (each element a byte value).  Go `int`/`int64`
fields become `Int`; `time.Time` values built by `time.Unix(sec, 0)` are
represented by their second count (`Int`), which is exactly what every
encoder/decoder in the package reads and writes.  The underlying output
`io.Writer` is modelled as an append-only byte list plus an oracle
(`wres`) of injected results for successive underlying Write calls; an
exhausted oracle means the write succeeds.  Underlying writes are
all-or-nothing.  The underlying input `io.Reader` is the remaining byte
list; it can only fail by exhaustion (io.EOF / io.ErrUnexpectedEOF).
-/

deriving instance DecidableEq for Except

namespace Gocpio

/-- EncodingType from src/headers.go (iota values 0..4). -/
inductive EncodingType where
  | asciiSUSv2
  | asciiSVR4
  | asciiSVR4CRC
  | binaryLE
  | binaryBE
deriving DecidableEq

/-- The integer value of the Go `EncodingType` constant (iota order). -/
def encVal : EncodingType → Nat
  | .asciiSUSv2 => 0
  | .asciiSVR4 => 1
  | .asciiSVR4CRC => 2
  | .binaryLE => 3
  | .binaryBE => 4

/-- Header from src/headers.go.  `ModTime` is seconds since the epoch
(the package only ever uses `time.Unix(sec, 0)` and `ModTime.Unix()`). -/
structure Header where
  Name : List Nat
  Mode : Int
  DevMajor : Int
  DevMinor : Int
  Inode : Int
  UID : Int
  GID : Int
  NLink : Int
  RDevMajor : Int
  RDevMinor : Int
  ModTime : Int
  Size : Int
  Checksum : Int
  Encoding : EncodingType
deriving DecidableEq

/-- The bytes of the sentinel name "TRAILER!!!". -/
def trailerName : List Nat := [84, 82, 65, 73, 76, 69, 82, 33, 33, 33]

/-! ### Digit formatting (fmt.Fprintf `%0*o` / `%0*X` / `%d`) -/

/-- Fuel-driven most-significant-first digit expansion (structural so the
kernel can evaluate it). -/
def digitsAux (b : Nat) : Nat → Nat → List Nat
  | 0, v => [v]
  | fuel + 1, v =>
    if v < b ∨ b ≤ 1 then [v]
    else digitsAux b fuel (v / b) ++ [v % b]

/-- The base-`b` digits of `v`, most significant first; `0` yields `[0]`
(Go's fmt prints "0" for zero). -/
def natDigits (b v : Nat) : List Nat := digitsAux b v v

/-- Digit values back to a number (fold, most significant first). -/
def digitsToNat (b : Nat) (ds : List Nat) : Nat :=
  ds.foldl (fun a d => a * b + d) 0

/-- The ASCII character for digit value `d` (uppercase for 10..15, as Go's
`%X` prints). -/
def digitToChar (d : Nat) : Nat := if d < 10 then 48 + d else 55 + d

/-- Zero-pad the digits of `v` to at least `w` digits (Go's `%0*o`/`%0*X`
width is a minimum). -/
def padDigits (b w v : Nat) : List Nat :=
  List.replicate (w - (natDigits b v).length) 0 ++ natDigits b v

/-- `fmt.Fprintf` of a nonnegative number: `%0*o` (b = 8) / `%0*X` (b = 16). -/
def formatNat (b w v : Nat) : List Nat := (padDigits b w v).map digitToChar

/-- `fmt.Fprintf` of a Go integer with zero padding; a negative value prints
a '-' (45) before the zero-padded magnitude, the sign counting toward the
width, as Go's fmt does. -/
def formatGoInt (b w : Nat) (v : Int) : List Nat :=
  if v < 0 then 45 :: formatNat b (w - 1) v.natAbs else formatNat b w v.toNat

/-- `%06o` field of src/writer.go's SUSv2 format string. -/
def oct6 (v : Int) : List Nat := formatGoInt 8 6 v

/-- `%011o` field of src/writer.go's SUSv2 format string. -/
def oct11 (v : Int) : List Nat := formatGoInt 8 11 v

/-- `%08X` field of src/writer.go's SVR4 format string. -/
def hex8 (v : Int) : List Nat := formatGoInt 16 8 v

/-- Go's `uint16(x)` conversion of an integer (low 16 bits, two's
complement for negatives). -/
def toU16 (x : Int) : Nat := (x % 65536).toNat

/-- A 16-bit word in the chosen byte order (`le = true` for little-endian),
as emitted by `encoding/binary` for a `uint16`. -/
def w16 (le : Bool) (v : Nat) : List Nat :=
  if le then [v % 256, v / 256] else [v / 256, v % 256]

/-! ### Wire serializations (the byte sequences the Writer's paths emit) -/

/-- The bytes written by Writer.nextASCIISUSv2's single Fprintf
(src/writer.go lines 163-180): magic "070707", ten octal fields, the name
and a terminating NUL. -/
def encodeSUSv2 (h : Header) : List Nat :=
  [48, 55, 48, 55, 48, 55] ++
  oct6 h.DevMinor ++ oct6 h.Inode ++ oct6 h.Mode ++ oct6 h.UID ++
  oct6 h.GID ++ oct6 h.NLink ++ oct6 h.RDevMinor ++ oct11 h.ModTime ++
  oct6 ((h.Name.length : Int) + 1) ++ oct11 h.Size ++ h.Name ++ [0]

/-- The bytes written by Writer.nextASCIISVR4's single Fprintf
(src/writer.go lines 128-152): "07070%d" with the encoding's integer value
(1 or 2 at its call sites), thirteen 8-hex-digit fields, the name, a NUL
and the name padding to a 4-byte boundary (the 2 leftover magic bytes
counting toward the modulus). -/
def encodeSVR4 (h : Header) : List Nat :=
  let nameLen : Nat := h.Name.length + 1
  let rem : Nat := (nameLen + 2) % 4
  [48, 55, 48, 55, 48] ++ [48 + encVal h.Encoding] ++
  hex8 h.Inode ++ hex8 h.Mode ++ hex8 h.UID ++ hex8 h.GID ++
  hex8 h.NLink ++ hex8 h.ModTime ++ hex8 h.Size ++ hex8 h.DevMajor ++
  hex8 h.DevMinor ++ hex8 h.RDevMajor ++ hex8 h.RDevMinor ++
  hex8 (nameLen : Int) ++ hex8 h.Checksum ++
  h.Name ++ [0] ++ (if rem > 0 then List.replicate (4 - rem) 0 else [])

/-- The twelve 16-bit words of the binaryHeader record (src/headers.go
lines 48-59) as Writer.writeBinary fills it: Dev, Inode, Mode, UID, GID,
NLink, RDev, ModTime split high/low, Namesize, Filesize split high/low.
Go's `/` and `%` on int64 are truncated division (Int.tdiv / Int.tmod). -/
def binRecord (le : Bool) (h : Header) : List Nat :=
  w16 le (toU16 h.DevMinor) ++ w16 le (toU16 h.Inode) ++
  w16 le (toU16 h.Mode) ++ w16 le (toU16 h.UID) ++
  w16 le (toU16 h.GID) ++ w16 le (toU16 h.NLink) ++
  w16 le (toU16 h.RDevMinor) ++
  w16 le (toU16 (Int.tdiv h.ModTime 65536)) ++
  w16 le (toU16 (Int.tmod h.ModTime 65536)) ++
  w16 le (toU16 ((h.Name.length : Int) + 1)) ++
  w16 le (toU16 (Int.tdiv h.Size 65536)) ++
  w16 le (toU16 (Int.tmod h.Size 65536))

/-- Everything Writer.writeBinary sends: the 16-bit magic 0o070707, the
record, and the name buffer of length nlen + nlen%2 (name, NUL, and one
more zero byte when nlen is odd). -/
def encodeBinary (le : Bool) (h : Header) : List Nat :=
  w16 le 29127 ++ binRecord le h ++
  (h.Name ++ List.replicate (1 + (h.Name.length + 1) % 2) 0)

/-- The full serialization of one header per its encoding tag, matching
the WriteHeader dispatch. -/
def encodeHeader (h : Header) : List Nat :=
  match h.Encoding with
  | .asciiSUSv2 => encodeSUSv2 h
  | .asciiSVR4 => encodeSVR4 h
  | .asciiSVR4CRC => encodeSVR4 h
  | .binaryLE => encodeBinary true h
  | .binaryBE => encodeBinary false h

/-! ### The Writer state machine (src/writer.go) -/

/-- Writer-side errors.  `missed n` is the "cpio: missed writing %d bytes"
error (it carries the count, so distinct counts are distinct errors, as
the distinct messages are in Go); `injected` stands for an opaque error
returned by the underlying io.Writer. -/
inductive WErr where
  | afterClose
  | tooLong
  | missed (n : Int)
  | injected
deriving DecidableEq

/-- Writer state (src/writer.go lines 22-31) plus the model of the
underlying stream: `out` is everything successfully written, `wres` the
oracle of results for the next underlying Write calls ([] = succeed). -/
structure WState where
  out : List Nat
  err : Option WErr
  closed : Bool
  nb : Int
  pad : Int
  first : Bool
  enc : EncodingType
  wres : List (Option WErr)
deriving DecidableEq

/-- NewWriter with a chosen oracle for the underlying stream. -/
def newWriter (rs : List (Option WErr)) : WState :=
  { out := [], err := none, closed := false, nb := 0, pad := 0,
    first := false, enc := .asciiSUSv2, wres := rs }

/-- One call to the underlying io.Writer: all-or-nothing, result drawn
from the oracle (success once the oracle is exhausted). -/
def uwrite (ws : WState) (b : List Nat) : (Nat × Option WErr) × WState :=
  match ws.wres with
  | [] => ((b.length, none), { ws with out := ws.out ++ b })
  | none :: rest => ((b.length, none), { ws with out := ws.out ++ b, wres := rest })
  | some e :: rest => ((0, some e), { ws with wres := rest })

/-- Writer.Flush (src/writer.go lines 58-69).  `zeroBlock[:cw.pad]` is
`pad` zero bytes (the writer keeps 0 ≤ pad ≤ 3; Go would panic outside
[0,4], which no reachable state produces). -/
def WState.flush (ws : WState) : Option WErr × WState :=
  if ws.nb > 0 then
    (some (.missed ws.nb), { ws with err := some (.missed ws.nb) })
  else if ws.pad = 0 then (ws.err, ws)
  else
    let r := uwrite ws (List.replicate ws.pad.toNat 0)
    ((r.1).2, { r.2 with err := (r.1).2, pad := 0 })

/-- Writer.Write (src/writer.go lines 74-90).  Note: it does not consult
`cw.err`, it truncates `b` to the remaining count before forwarding, and
the final `cw.err = err` assignment can overwrite a previously stored
error (with nil on success).  `b.take ws.nb.toNat` is Go's `b[:cw.nb]`
(which would panic for negative nb; unreachable for nonnegative sizes). -/
def WState.write (ws : WState) (b : List Nat) : (Nat × Option WErr) × WState :=
  if ws.closed then ((0, some .afterClose), ws)
  else
    let over : Bool := (b.length : Int) > ws.nb
    let b2 := if over then b.take ws.nb.toNat else b
    let r := uwrite ws b2
    let n := (r.1).1
    let e := (r.1).2
    let ws2 := { r.2 with nb := r.2.nb - (n : Int) }
    if e = none ∧ over then ((n, some .tooLong), ws2)
    else ((n, e), { ws2 with err := e })

/-- Writer.nextASCIISVR4 (src/writer.go lines 128-161): one Fprintf, then
the payload padding (`Size % 4`, complemented when nonzero) and the
remaining-byte counter are armed, whether or not the write failed. -/
def WState.nextASCIISVR4 (ws : WState) (h : Header) : Option WErr × WState :=
  let r := uwrite ws (encodeSVR4 h)
  let e := (r.1).2
  let pad0 := Int.tmod h.Size 4
  let pad1 := if pad0 > 0 then 4 - pad0 else pad0
  (e, { r.2 with err := e, pad := pad1, nb := h.Size })

/-- Writer.nextASCIISUSv2 (src/writer.go lines 163-180): one Fprintf, no
payload padding. -/
def WState.nextASCIISUSv2 (ws : WState) (h : Header) : Option WErr × WState :=
  let r := uwrite ws (encodeSUSv2 h)
  let e := (r.1).2
  (e, { r.2 with err := e, pad := 0, nb := h.Size })

/-- Writer.writeBinary (src/writer.go lines 182-219): three underlying
writes (magic word, record, name buffer), each checked before the next;
then nb and pad (`Size % 2`) are armed and nil is returned. -/
def WState.writeBinary (ws : WState) (h : Header) (le : Bool) : Option WErr × WState :=
  let r1 := uwrite ws (w16 le 29127)
  let ws1 := { r1.2 with err := (r1.1).2 }
  match (r1.1).2 with
  | some e => (some e, ws1)
  | none =>
    let r2 := uwrite ws1 (binRecord le h)
    let ws2 := { r2.2 with err := (r2.1).2 }
    match (r2.1).2 with
    | some e => (some e, ws2)
    | none =>
      let r3 := uwrite ws2 (h.Name ++ List.replicate (1 + (h.Name.length + 1) % 2) 0)
      let ws3 := { r3.2 with err := (r3.1).2 }
      match (r3.1).2 with
      | some e => (some e, ws3)
      | none => (none, { ws3 with nb := h.Size, pad := Int.tmod h.Size 2 })

/-- Writer.WriteHeader (src/writer.go lines 95-126): rejects when closed,
flushes when error-free, returns any (possibly fresh) stored error,
latches the stream encoding on the first header, then dispatches. -/
def WState.writeHeader (ws : WState) (h : Header) : Option WErr × WState :=
  if ws.closed then (some .afterClose, ws)
  else
    let ws1 := if ws.err = none then (WState.flush ws).2 else ws
    match ws1.err with
    | some e => (some e, ws1)
    | none =>
      let ws2 := if ws1.first then ws1 else { ws1 with first := true, enc := h.Encoding }
      match h.Encoding with
      | .binaryBE => WState.writeBinary ws2 h false
      | .binaryLE => WState.writeBinary ws2 h true
      | .asciiSUSv2 => WState.nextASCIISUSv2 ws2 h
      | .asciiSVR4 => WState.nextASCIISVR4 ws2 h
      | .asciiSVR4CRC => WState.nextASCIISVR4 ws2 h

/-- The trailer header Close writes (src/writer.go lines 44-49). -/
def trailerHdr (e : EncodingType) : Header :=
  { Name := trailerName, Mode := 0, DevMajor := 0, DevMinor := 0,
    Inode := 0, UID := 0, GID := 0, NLink := 1, RDevMajor := 0,
    RDevMinor := 0, ModTime := 0, Size := 0, Checksum := 0, Encoding := e }

/-- Writer.Close (src/writer.go lines 39-55). -/
def WState.close (ws : WState) : Option WErr × WState :=
  if ws.err ≠ none ∨ ws.closed then (ws.err, ws)
  else
    let ws1 := (WState.writeHeader ws (trailerHdr ws.enc)).2
    let ws2 := (WState.flush ws1).2
    let ws3 := { ws2 with closed := true }
    (ws3.err, ws3)

/-! ### The Reader state machine (shared state, two implementations) -/

/-- Reader-side errors.  `eofR` is io.EOF (both the end-of-entry /
end-of-archive signal and the clean end-of-input error), `unexpEOF` is
io.ErrUnexpectedEOF, `header` is ErrHeader, and `scan` collapses the
various fmt / strconv numeric-parse failures (no claim distinguishes
between two different parse errors). -/
inductive RErr where
  | eofR
  | unexpEOF
  | header
  | scan
deriving DecidableEq

/-- Reader state (src/reader.go lines 20-26): the remaining underlying
input, the sticky error, the LimitReader over the current entry (`none` =
no entry, `some n` = n bytes remaining), and the pending alignment skip.
The scratch buffer `buf` carries no information across calls and is not
modelled. -/
structure RState where
  input : List Nat
  err : Option RErr
  lr : Option Int
  align : Nat
deriving DecidableEq

/-- NewReader (src/reader.go line 29). -/
def initReader (bs : List Nat) : RState :=
  { input := bs, err := none, lr := none, align := 0 }

/-- io.ReadFull on the remaining input: all `n` bytes, or io.EOF when the
input was already empty, or io.ErrUnexpectedEOF on a short read. -/
def readFull (n : Nat) (input : List Nat) : Except RErr (List Nat × List Nat) :=
  if n ≤ input.length then .ok (input.take n, input.drop n)
  else if input.length = 0 then .error .eofR
  else .error .unexpEOF

/-- Reader.Read (src/reader.go lines 37-53, identical in part_000) with a
caller buffer of `k` bytes.  The LimitReader yields (0, io.EOF) once its
count is exhausted without touching the underlying stream; a non-empty
window reads min(k, window, available) bytes; an exhausted underlying
stream surfaces io.EOF, which clears `lr` but is not stored in `err`. -/
def RState.read (s : RState) (k : Nat) : (List Nat × Option RErr) × RState :=
  match s.err with
  | some e => (([], some e), s)
  | none =>
    match s.lr with
    | none => (([], some .eofR), s)
    | some n =>
      if n ≤ 0 then (([], some .eofR), { s with lr := none })
      else
        let m := min k n.toNat
        if m = 0 then (([], none), s)
        else if s.input.length = 0 then (([], some .eofR), { s with lr := none })
        else
          let chunk := s.input.take m
          ((chunk, none),
           { s with input := s.input.drop m, lr := some (n - (chunk.length : Int)) })

/-! #### Scanning primitives for fmt.Fscanf numeric verbs -/

/-- ASCII whitespace, which fmt's scanner skips before a numeric verb. -/
def isSpace (c : Nat) : Bool :=
  c = 32 ∨ c = 9 ∨ c = 10 ∨ c = 11 ∨ c = 12 ∨ c = 13

/-- The value of a digit character in base ≤ 16 (both letter cases), or
none when the character is no digit of that base. -/
def digitVal (b c : Nat) : Option Nat :=
  if 48 ≤ c ∧ c ≤ 57 ∧ c - 48 < b then some (c - 48)
  else if 65 ≤ c ∧ c ≤ 70 ∧ c - 55 < b then some (c - 55)
  else if 97 ≤ c ∧ c ≤ 102 ∧ c - 87 < b then some (c - 87)
  else none

/-- Read up to `w` base-`b` digit characters from the front of the input,
returning their values and the rest. -/
def takeDigits (b : Nat) : Nat → List Nat → List Nat × List Nat
  | 0, input => ([], input)
  | _ + 1, [] => ([], [])
  | w + 1, c :: rest =>
    match digitVal b c with
    | some d =>
      let r := takeDigits b w rest
      (d :: r.1, r.2)
    | none => ([], c :: rest)

/-- One numeric verb of fmt.Fscanf (`%0wo` / `%0wx`): skip leading
whitespace, accept an optional sign, then at most `w` digits; no digits is
a scan error.  (On the error path the exact number of look-ahead bytes Go
discards is approximated; every theorem that touches scanning assumes
exact-width digit fields, where no look-ahead happens.) -/
def scanInt (b w : Nat) (input : List Nat) : Option Int × List Nat :=
  let t := input.dropWhile isSpace
  match t with
  | [] => (none, [])
  | c :: r =>
    if c = 45 then
      match takeDigits b (w - 1) r with
      | ([], r2) => (none, r2)
      | (ds, r2) => (some (-(digitsToNat b ds : Int)), r2)
    else if c = 43 then
      match takeDigits b (w - 1) r with
      | ([], r2) => (none, r2)
      | (ds, r2) => (some ((digitsToNat b ds : Int)), r2)
    else
      match takeDigits b w t with
      | ([], r2) => (none, r2)
      | (ds, r2) => (some ((digitsToNat b ds : Int)), r2)

/-- Scanner state threaded through one Fscanf call: remaining input and
whether every verb so far succeeded (Fscanf stops at the first failure). -/
structure ScanS where
  input : List Nat
  ok : Bool
deriving DecidableEq

/-- Run one verb when no earlier verb failed. -/
def scan1 (b w : Nat) (s : ScanS) : Int × ScanS :=
  if s.ok then
    match scanInt b w s.input with
    | (some v, r) => (v, { input := r, ok := true })
    | (none, r) => (0, { input := r, ok := false })
  else (0, s)

/-- The digit-run core of strconv.ParseInt: one or more base-`b` digit
characters, nothing else. -/
def parseDigitsGo (b : Nat) (ds : List Nat) : Option Nat :=
  if ds.length ≠ 0 ∧ ds.all (fun c => (digitVal b c).isSome) then
    some (digitsToNat b (ds.map fun c => (digitVal b c).getD 0))
  else none

/-- strconv.ParseInt(s, b, 64) on an exact byte slice: optional sign,
then one or more base-`b` digits, rejecting everything else and values
outside the int64 range. -/
def parseIntGo (b : Nat) (s : List Nat) : Option Int :=
  match s with
  | [] => none
  | c :: rest =>
    if c = 45 then
      match parseDigitsGo b rest with
      | some v => if (v : Int) ≤ 2 ^ 63 then some (-(v : Int)) else none
      | none => none
    else if c = 43 then
      match parseDigitsGo b rest with
      | some v => if (v : Int) ≤ 2 ^ 63 - 1 then some ((v : Int)) else none
      | none => none
    else
      match parseDigitsGo b (c :: rest) with
      | some v => if (v : Int) ≤ 2 ^ 63 - 1 then some ((v : Int)) else none
      | none => none

/-- bytes.IndexByte(buf, 0) truncation used for the name: everything up to
the first NUL (the whole buffer when there is none). -/
def upToNul (bs : List Nat) : List Nat := bs.takeWhile (fun c => c ≠ 0)

/-- A 16-bit word at index `i` of a decoded binary record, per byte order
(how encoding/binary fills the uint16 fields of binaryHeader). -/
def get16 (le : Bool) (bs : List Nat) (i : Nat) : Nat :=
  let b0 := bs.getD (2 * i) 0
  let b1 := bs.getD (2 * i + 1) 0
  if le then b0 + 256 * b1 else 256 * b0 + b1

namespace Reader

/-- Reader.nextName of src/reader.go (lines 149-195): pad the name length
and compute the payload alignment per encoding — note the SVR4 arm feeds
the PRE-padding name remainder `rem` into the payload alignment, and the
binary arm uses `Size % 2` alone — then read the padded name field,
truncate at the first NUL, recognize the trailer sentinel (without
storing an error), and otherwise arm the LimitReader. -/
def nextName (s : RState) (hdr : Header) (p : Int) : Except RErr Header × RState :=
  match s.err with
  | some e => (.error e, s)
  | none =>
    let pa : Int × Nat :=
      match hdr.Encoding with
      | .binaryLE | .binaryBE =>
        (p + Int.tmod p 2, (Int.tmod hdr.Size 2).toNat)
      | .asciiSVR4 | .asciiSVR4CRC =>
        let rem := Int.tmod (p + 2) 4
        let p2 := if rem > 0 then p + (4 - rem) else p
        let rem2 := Int.tmod (hdr.Size + rem) 4
        (p2, if rem2 > 0 then (4 - rem2).toNat else 0)
      | .asciiSUSv2 => (p, 0)
    let s1 := { s with align := pa.2 }
    match readFull pa.1.toNat s1.input with
    | .error e => (.error e, { s1 with err := some e })
    | .ok (bs, rest) =>
      let s2 := { s1 with input := rest }
      let name := upToNul bs
      if name = trailerName ∧ hdr.Size = 0 then (.error .eofR, s2)
      else (.ok { hdr with Name := name }, { s2 with lr := some hdr.Size })

/-- Reader.nextASCIISUSv2 of src/reader.go (lines 128-147): one Fscanf
with ten octal verbs (widths 6,6,6,6,6,6,6,11,6,11) read straight off the
underlying stream, then nextName. -/
def nextASCIISUSv2 (s : RState) : Except RErr Header × RState :=
  let t0 : ScanS := { input := s.input, ok := true }
  let r1 := scan1 8 6 t0
  let r2 := scan1 8 6 r1.2
  let r3 := scan1 8 6 r2.2
  let r4 := scan1 8 6 r3.2
  let r5 := scan1 8 6 r4.2
  let r6 := scan1 8 6 r5.2
  let r7 := scan1 8 6 r6.2
  let r8 := scan1 8 11 r7.2
  let r9 := scan1 8 6 r8.2
  let r10 := scan1 8 11 r9.2
  if r10.2.ok then
    nextName { s with input := r10.2.input, err := none }
      { Name := [], Mode := r3.1, DevMajor := 0, DevMinor := r1.1,
        Inode := r2.1, UID := r4.1, GID := r5.1, NLink := r6.1,
        RDevMajor := 0, RDevMinor := r7.1, ModTime := r8.1, Size := r10.1,
        Checksum := 0, Encoding := .asciiSUSv2 } r9.1
  else (.error .scan, { s with input := r10.2.input, err := some .scan })

/-- Reader.nextASCIISVR4 of src/reader.go (lines 197-219): one Fscanf with
thirteen 8-wide hex verbs, then nextName. -/
def nextASCIISVR4 (s : RState) (enc : EncodingType) : Except RErr Header × RState :=
  let t0 : ScanS := { input := s.input, ok := true }
  let r1 := scan1 16 8 t0
  let r2 := scan1 16 8 r1.2
  let r3 := scan1 16 8 r2.2
  let r4 := scan1 16 8 r3.2
  let r5 := scan1 16 8 r4.2
  let r6 := scan1 16 8 r5.2
  let r7 := scan1 16 8 r6.2
  let r8 := scan1 16 8 r7.2
  let r9 := scan1 16 8 r8.2
  let r10 := scan1 16 8 r9.2
  let r11 := scan1 16 8 r10.2
  let r12 := scan1 16 8 r11.2
  let r13 := scan1 16 8 r12.2
  if r13.2.ok then
    nextName { s with input := r13.2.input, err := none }
      { Name := [], Mode := r2.1, DevMajor := r8.1, DevMinor := r9.1,
        Inode := r1.1, UID := r3.1, GID := r4.1, NLink := r5.1,
        RDevMajor := r10.1, RDevMinor := r11.1, ModTime := r6.1,
        Size := r7.1, Checksum := r13.1, Encoding := enc } r12.1
  else (.error .scan, { s with input := r13.2.input, err := some .scan })

/-- Reader.nextBinary of src/reader.go (lines 221-242): binary.Read of the
24-byte record (12 uint16 words in the detected byte order), then
nextName with the decoded Namesize. -/
def nextBinary (s : RState) (le : Bool) : Except RErr Header × RState :=
  match readFull 24 s.input with
  | .error e => (.error e, { s with err := some e })
  | .ok (bs, rest) =>
    let s1 := { s with input := rest, err := none }
    nextName s1
      { Name := [], Mode := (get16 le bs 2 : Int), DevMajor := 0,
        DevMinor := (get16 le bs 0 : Int), Inode := (get16 le bs 1 : Int),
        UID := (get16 le bs 3 : Int), GID := (get16 le bs 4 : Int),
        NLink := (get16 le bs 5 : Int), RDevMajor := 0,
        RDevMinor := (get16 le bs 6 : Int),
        ModTime := 65536 * (get16 le bs 7 : Int) + (get16 le bs 8 : Int),
        Size := 65536 * (get16 le bs 10 : Int) + (get16 le bs 11 : Int),
        Checksum := 0,
        Encoding := if le then .binaryLE else .binaryBE }
      ((get16 le bs 9 : Int))

/-- Reader.nextASCII of src/reader.go (lines 91-108): four more magic
bytes pick the ASCII family. -/
def nextASCII (s : RState) : Except RErr Header × RState :=
  match readFull 4 s.input with
  | .error e => (.error e, { s with err := some e })
  | .ok (bs, rest) =>
    let s1 := { s with input := rest }
    if bs = [48, 55, 48, 55] then nextASCIISUSv2 s1
    else if bs = [48, 55, 48, 49] then nextASCIISVR4 s1 .asciiSVR4
    else if bs = [48, 55, 48, 50] then nextASCIISVR4 s1 .asciiSVR4CRC
    else (.error .header, { s1 with err := some .header })

/-- Reader.Next of src/reader.go (lines 58-89): return any stored error,
skip unread payload (io.Copy through Read consumes min(window, available)
bytes and clears the LimitReader), read align+2 bytes dropping the
alignment filler, and dispatch on the 2-byte magic. -/
def next (s : RState) : Except RErr Header × RState :=
  match s.err with
  | some e => (.error e, s)
  | none =>
    let s0 :=
      match s.lr with
      | some n => { s with input := s.input.drop n.toNat, lr := none }
      | none => s
    match readFull (2 + s0.align) s0.input with
    | .error e => (.error e, { s0 with err := some e })
    | .ok (bs, rest) =>
      let s1 := { s0 with input := rest }
      let m := bs.drop s1.align
      if m = [113, 199] then nextBinary s1 false
      else if m = [199, 113] then nextBinary s1 true
      else if m = [48, 55] then nextASCII s1
      else (.error .header, { s1 with err := some .header })

end Reader

namespace ReaderU

/-- Reader.nextName of src/unnamed/part_000 (lines 154-201).  It differs
from src/reader.go only in the binary arm: the name-padding remainder
`rem = p % 2` is also added into the payload alignment
(`align = (Size + rem) % 2`). -/
def nextName (s : RState) (hdr : Header) (p : Int) : Except RErr Header × RState :=
  match s.err with
  | some e => (.error e, s)
  | none =>
    let pa : Int × Nat :=
      match hdr.Encoding with
      | .binaryLE | .binaryBE =>
        let rem := Int.tmod p 2
        (p + rem, (Int.tmod (hdr.Size + rem) 2).toNat)
      | .asciiSVR4 | .asciiSVR4CRC =>
        let rem := Int.tmod (p + 2) 4
        let p2 := if rem > 0 then p + (4 - rem) else p
        let rem2 := Int.tmod (hdr.Size + rem) 4
        (p2, if rem2 > 0 then (4 - rem2).toNat else 0)
      | .asciiSUSv2 => (p, 0)
    let s1 := { s with align := pa.2 }
    match readFull pa.1.toNat s1.input with
    | .error e => (.error e, { s1 with err := some e })
    | .ok (bs, rest) =>
      let s2 := { s1 with input := rest }
      let name := upToNul bs
      if name = trailerName ∧ hdr.Size = 0 then (.error .eofR, s2)
      else (.ok { hdr with Name := name }, { s2 with lr := some hdr.Size })

/-- Reader.nextASCIISUSv2 of src/unnamed/part_000 (lines 127-152):
binary.Read of the fixed 70-byte asciiSUSv2Header record, then
strconv.ParseInt (base 8) on each exact-width field; the first parse
failure aborts (all failures collapsed to `.scan`). -/
def nextASCIISUSv2 (s : RState) : Except RErr Header × RState :=
  match readFull 70 s.input with
  | .error e => (.error e, { s with err := some e })
  | .ok (bs, rest) =>
    let seg : Nat → Nat → List Nat := fun off len => (bs.drop off).take len
    match parseIntGo 8 (seg 0 6), parseIntGo 8 (seg 6 6), parseIntGo 8 (seg 12 6),
      parseIntGo 8 (seg 18 6), parseIntGo 8 (seg 24 6), parseIntGo 8 (seg 30 6),
      parseIntGo 8 (seg 36 6), parseIntGo 8 (seg 42 11), parseIntGo 8 (seg 53 6),
      parseIntGo 8 (seg 59 11) with
    | some dev, some inode, some mode, some uid, some gid, some nlink,
      some rdev, some mt, some nsz, some fsz =>
      nextName { s with input := rest, err := none }
        { Name := [], Mode := mode, DevMajor := 0, DevMinor := dev,
          Inode := inode, UID := uid, GID := gid, NLink := nlink,
          RDevMajor := 0, RDevMinor := rdev, ModTime := mt, Size := fsz,
          Checksum := 0, Encoding := .asciiSUSv2 } nsz
    | _, _, _, _, _, _, _, _, _, _ =>
      (.error .scan, { s with input := rest, err := some .scan })

/-- Reader.nextASCIISVR4 of src/unnamed/part_000 (lines 203-231):
binary.Read of the fixed 104-byte asciiSVR4Header record, then
strconv.ParseInt (base 16) on each 8-byte field. -/
def nextASCIISVR4 (s : RState) (enc : EncodingType) : Except RErr Header × RState :=
  match readFull 104 s.input with
  | .error e => (.error e, { s with err := some e })
  | .ok (bs, rest) =>
    let seg : Nat → List Nat := fun off => (bs.drop off).take 8
    match parseIntGo 16 (seg 0), parseIntGo 16 (seg 8), parseIntGo 16 (seg 16),
      parseIntGo 16 (seg 24), parseIntGo 16 (seg 32), parseIntGo 16 (seg 40),
      parseIntGo 16 (seg 48), parseIntGo 16 (seg 56), parseIntGo 16 (seg 64),
      parseIntGo 16 (seg 72), parseIntGo 16 (seg 80), parseIntGo 16 (seg 88),
      parseIntGo 16 (seg 96) with
    | some inode, some mode, some uid, some gid, some nlink, some mt,
      some fsz, some devMaj, some devMin, some rdevMaj, some rdevMin,
      some nsz, some csum =>
      nextName { s with input := rest, err := none }
        { Name := [], Mode := mode, DevMajor := devMaj, DevMinor := devMin,
          Inode := inode, UID := uid, GID := gid, NLink := nlink,
          RDevMajor := rdevMaj, RDevMinor := rdevMin, ModTime := mt,
          Size := fsz, Checksum := csum, Encoding := enc } nsz
    | _, _, _, _, _, _, _, _, _, _, _, _, _ =>
      (.error .scan, { s with input := rest, err := some .scan })

/-- Reader.nextBinary of src/unnamed/part_000 (lines 233-254); textually
identical to src/reader.go's but dispatching to this file's nextName. -/
def nextBinary (s : RState) (le : Bool) : Except RErr Header × RState :=
  match readFull 24 s.input with
  | .error e => (.error e, { s with err := some e })
  | .ok (bs, rest) =>
    let s1 := { s with input := rest, err := none }
    nextName s1
      { Name := [], Mode := (get16 le bs 2 : Int), DevMajor := 0,
        DevMinor := (get16 le bs 0 : Int), Inode := (get16 le bs 1 : Int),
        UID := (get16 le bs 3 : Int), GID := (get16 le bs 4 : Int),
        NLink := (get16 le bs 5 : Int), RDevMajor := 0,
        RDevMinor := (get16 le bs 6 : Int),
        ModTime := 65536 * (get16 le bs 7 : Int) + (get16 le bs 8 : Int),
        Size := 65536 * (get16 le bs 10 : Int) + (get16 le bs 11 : Int),
        Checksum := 0,
        Encoding := if le then .binaryLE else .binaryBE }
      ((get16 le bs 9 : Int))

/-- Reader.nextASCII of src/unnamed/part_000 (lines 90-107). -/
def nextASCII (s : RState) : Except RErr Header × RState :=
  match readFull 4 s.input with
  | .error e => (.error e, { s with err := some e })
  | .ok (bs, rest) =>
    let s1 := { s with input := rest }
    if bs = [48, 55, 48, 55] then nextASCIISUSv2 s1
    else if bs = [48, 55, 48, 49] then nextASCIISVR4 s1 .asciiSVR4
    else if bs = [48, 55, 48, 50] then nextASCIISVR4 s1 .asciiSVR4CRC
    else (.error .header, { s1 with err := some .header })

/-- Reader.Next of src/unnamed/part_000 (lines 57-88); textually identical
to src/reader.go's but dispatching to this file's decoders. -/
def next (s : RState) : Except RErr Header × RState :=
  match s.err with
  | some e => (.error e, s)
  | none =>
    let s0 :=
      match s.lr with
      | some n => { s with input := s.input.drop n.toNat, lr := none }
      | none => s
    match readFull (2 + s0.align) s0.input with
    | .error e => (.error e, { s0 with err := some e })
    | .ok (bs, rest) =>
      let s1 := { s0 with input := rest }
      let m := bs.drop s1.align
      if m = [113, 199] then nextBinary s1 false
      else if m = [199, 113] then nextBinary s1 true
      else if m = [48, 55] then nextASCII s1
      else (.error .header, { s1 with err := some .header })

end ReaderU

/-! ### Basic lemmas: io.ReadFull, digits, formatting, scanning -/

theorem readFull_ok (n : Nat) (xs rest : List Nat) (hx : xs.length = n) :
    readFull n (xs ++ rest) = .ok (xs, rest) := by
  subst hx
  unfold readFull
  rw [if_pos (by simp [List.length_append])]
  rw [List.take_left, List.drop_left]

theorem length_w16 (le : Bool) (v : Nat) : (w16 le v).length = 2 := by
  cases le <;> simp [w16]

theorem digitsAux_congr {b : Nat} :
    ∀ f g v, v ≤ f → v ≤ g → digitsAux b f v = digitsAux b g v := by
  intro f
  induction f with
  | zero =>
    intro g v hf _
    interval_cases v
    cases g with
    | zero => rfl
    | succ g =>
      simp only [digitsAux]
      rw [if_pos]
      by_cases hb : b ≤ 1
      · exact Or.inr hb
      · exact Or.inl (by omega)
  | succ f ih =>
    intro g v hf hg
    cases g with
    | zero =>
      interval_cases v
      simp only [digitsAux]
      rw [if_pos]
      by_cases hb : b ≤ 1
      · exact Or.inr hb
      · exact Or.inl (by omega)
    | succ g =>
      simp only [digitsAux]
      by_cases hv : v < b ∨ b ≤ 1
      · rw [if_pos hv, if_pos hv]
      · rw [if_neg hv, if_neg hv]
        push_neg at hv
        have h1 : 0 < v := by omega
        have h2 : v / b < v := Nat.div_lt_self h1 (by omega)
        rw [ih g (v / b) (by omega) (by omega)]

theorem natDigits_eq {b : Nat} (hb : 2 ≤ b) (v : Nat) :
    natDigits b v = if v < b then [v] else natDigits b (v / b) ++ [v % b] := by
  by_cases hv : v < b
  · rw [if_pos hv]
    unfold natDigits
    cases v with
    | zero => rfl
    | succ n =>
      simp only [digitsAux]
      rw [if_pos (Or.inl hv)]
  · rw [if_neg hv]
    unfold natDigits
    have h0 : 0 < v := by omega
    obtain ⟨n, rfl⟩ : ∃ n, v = n + 1 := ⟨v - 1, by omega⟩
    simp only [digitsAux]
    rw [if_neg (by omega)]
    congr 1
    exact digitsAux_congr n ((n + 1) / b) ((n + 1) / b)
      (by have := Nat.div_lt_self h0 (show 1 < b by omega); omega) le_rfl

theorem natDigits_lt {b : Nat} (hb : 2 ≤ b) (v : Nat) :
    ∀ d ∈ natDigits b v, d < b := by
  induction v using Nat.strong_induction_on with
  | _ v ih =>
    rw [natDigits_eq hb]
    by_cases hv : v < b
    · rw [if_pos hv]; intro d hd; simp at hd; omega
    · rw [if_neg hv]
      intro d hd
      rcases List.mem_append.mp hd with h | h
      · exact ih (v / b) (Nat.div_lt_self (by omega) (by omega)) d h
      · simp at h; subst h; exact Nat.mod_lt _ (by omega)

theorem natDigits_ne_nil {b : Nat} (hb : 2 ≤ b) (v : Nat) :
    natDigits b v ≠ [] := by
  rw [natDigits_eq hb]
  by_cases hv : v < b
  · rw [if_pos hv]; simp
  · rw [if_neg hv]; simp

theorem digitsToNat_append_singleton (b : Nat) (xs : List Nat) (d : Nat) :
    digitsToNat b (xs ++ [d]) = digitsToNat b xs * b + d := by
  unfold digitsToNat
  rw [List.foldl_append]
  rfl

theorem digitsToNat_natDigits {b : Nat} (hb : 2 ≤ b) (v : Nat) :
    digitsToNat b (natDigits b v) = v := by
  induction v using Nat.strong_induction_on with
  | _ v ih =>
    rw [natDigits_eq hb]
    by_cases hv : v < b
    · rw [if_pos hv]
      simp [digitsToNat]
    · rw [if_neg hv]
      rw [digitsToNat_append_singleton]
      rw [ih (v / b) (Nat.div_lt_self (by omega) (by omega))]
      have := Nat.div_add_mod v b
      rw [Nat.mul_comm] at this
      omega

theorem natDigits_length_le {b : Nat} (hb : 2 ≤ b) :
    ∀ w v, v < b ^ w → 0 < w → (natDigits b v).length ≤ w := by
  intro w
  induction w with
  | zero => intro v _ h; omega
  | succ w ih =>
    intro v hv _
    rw [natDigits_eq hb]
    by_cases h1 : v < b
    · rw [if_pos h1]; simp
    · rw [if_neg h1]
      rw [List.length_append]
      have hw : 0 < w := by
        by_contra h
        have : w = 0 := by omega
        subst this
        simp [pow_succ, pow_zero] at hv
        omega
      have hdiv : v / b < b ^ w := by
        rw [Nat.div_lt_iff_lt_mul (by omega : 0 < b)]
        calc v < b ^ (w + 1) := hv
          _ = b ^ w * b := by rw [pow_succ]
      have := ih (v / b) hdiv hw
      simp only [List.length_cons, List.length_nil]
      omega

theorem padDigits_length {b w v : Nat} (hb : 2 ≤ b) (hv : v < b ^ w) (hw : 0 < w) :
    (padDigits b w v).length = w := by
  unfold padDigits
  rw [List.length_append, List.length_replicate]
  have := natDigits_length_le hb w v hv hw
  omega

theorem padDigits_lt {b w v : Nat} (hb : 2 ≤ b) :
    ∀ d ∈ padDigits b w v, d < b := by
  intro d hd
  unfold padDigits at hd
  rcases List.mem_append.mp hd with h | h
  · have := List.eq_of_mem_replicate h
    omega
  · exact natDigits_lt hb v d h

theorem digitsToNat_replicate_zero (b k : Nat) (ds : List Nat) :
    digitsToNat b (List.replicate k 0 ++ ds) = digitsToNat b ds := by
  induction k with
  | zero => rfl
  | succ k ih =>
    rw [List.replicate_succ, List.cons_append]
    unfold digitsToNat at *
    simp only [List.foldl_cons]
    simpa using ih

theorem digitsToNat_padDigits {b w v : Nat} (hb : 2 ≤ b) :
    digitsToNat b (padDigits b w v) = v := by
  unfold padDigits
  rw [digitsToNat_replicate_zero, digitsToNat_natDigits hb]

theorem digitsToNat_lt {b : Nat} (hb : 2 ≤ b) :
    ∀ ds : List Nat, (∀ d ∈ ds, d < b) → digitsToNat b ds < b ^ ds.length := by
  have key : ∀ ds : List Nat, (∀ d ∈ ds, d < b) → ∀ a : Nat,
      List.foldl (fun x d => x * b + d) a ds < (a + 1) * b ^ ds.length := by
    intro ds
    induction ds with
    | nil => intro _ a; simp
    | cons d tl ih =>
      intro hmem a
      simp only [List.foldl_cons, List.length_cons]
      have hd : d < b := hmem d (by simp)
      have := ih (fun x hx => hmem x (by simp [hx])) (a * b + d)
      calc List.foldl (fun x d => x * b + d) (a * b + d) tl
          < (a * b + d + 1) * b ^ tl.length := this
        _ ≤ ((a + 1) * b) * b ^ tl.length := by
            have : a * b + d + 1 ≤ (a + 1) * b := by nlinarith
            exact Nat.mul_le_mul_right _ this
        _ = (a + 1) * b ^ (tl.length + 1) := by ring
  intro ds hmem
  have := key ds hmem 0
  simpa using this

theorem digitVal_digitToChar {b d : Nat} (hd : d < b) (hb : b ≤ 16) :
    digitVal b (digitToChar d) = some d := by
  unfold digitVal digitToChar
  by_cases h10 : d < 10
  · rw [if_pos h10, if_pos (by omega)]
    congr 1
    omega
  · rw [if_neg h10]
    rw [if_neg (by omega), if_pos (by omega)]
    congr 1
    omega

theorem digitToChar_ge_48 (d : Nat) : 48 ≤ digitToChar d := by
  unfold digitToChar
  split <;> omega

theorem isSpace_eq_false {c : Nat} (hc : 48 ≤ c) : isSpace c = false := by
  simp only [isSpace, decide_eq_false_iff_not]
  omega

theorem takeDigits_exact {b : Nat} (hb16 : b ≤ 16) :
    ∀ (ds rest : List Nat), (∀ d ∈ ds, d < b) →
      takeDigits b ds.length (ds.map digitToChar ++ rest) = (ds, rest) := by
  intro ds
  induction ds with
  | nil => intro rest _; rfl
  | cons d tl ih =>
    intro rest hmem
    simp only [List.length_cons, List.map_cons, List.cons_append]
    unfold takeDigits
    rw [digitVal_digitToChar (hmem d (by simp)) hb16]
    rw [ih rest (fun x hx => hmem x (by simp [hx]))]

theorem dropWhile_isSpace_digits {ds rest : List Nat} (hne : ds ≠ []) :
    (ds.map digitToChar ++ rest).dropWhile isSpace = ds.map digitToChar ++ rest := by
  cases ds with
  | nil => exact absurd rfl hne
  | cons d tl =>
    simp only [List.map_cons, List.cons_append, List.dropWhile_cons]
    rw [isSpace_eq_false (digitToChar_ge_48 d)]
    simp

theorem scanInt_digits {b w : Nat} (hb : 2 ≤ b) (hb16 : b ≤ 16)
    (ds rest : List Nat) (hne : ds ≠ []) (hw : ds.length = w)
    (hmem : ∀ d ∈ ds, d < b) :
    scanInt b w (ds.map digitToChar ++ rest) =
      (some ((digitsToNat b ds : Nat) : Int), rest) := by
  subst hw
  unfold scanInt
  rw [dropWhile_isSpace_digits hne]
  cases ds with
  | nil => exact absurd rfl hne
  | cons d tl =>
    simp only [List.map_cons, List.cons_append]
    have h48 := digitToChar_ge_48 d
    rw [if_neg (by omega), if_neg (by omega)]
    have := takeDigits_exact hb16 (d :: tl) rest hmem
    simp only [List.map_cons, List.cons_append] at this
    rw [this]

theorem scan1_digits {b w : Nat} (hb : 2 ≤ b) (hb16 : b ≤ 16)
    (ds rest : List Nat) (hne : ds ≠ []) (hw : ds.length = w)
    (hmem : ∀ d ∈ ds, d < b) :
    scan1 b w { input := ds.map digitToChar ++ rest, ok := true } =
      (((digitsToNat b ds : Nat) : Int), { input := rest, ok := true }) := by
  unfold scan1
  rw [if_pos rfl, scanInt_digits hb hb16 ds rest hne hw hmem]

theorem scan1_format {b w : Nat} (v : Int) (rest : List Nat)
    (hb : 2 ≤ b) (hb16 : b ≤ 16) (hw : 0 < w)
    (hv0 : 0 ≤ v) (hv : v.toNat < b ^ w) :
    scan1 b w { input := formatGoInt b w v ++ rest, ok := true } =
      (v, { input := rest, ok := true }) := by
  unfold formatGoInt
  rw [if_neg (by omega)]
  unfold formatNat
  have hlen : (padDigits b w v.toNat).length = w := padDigits_length hb hv hw
  have := scan1_digits hb hb16 (padDigits b w v.toNat) rest
    (by intro h; rw [h] at hlen; simp at hlen; omega) hlen (padDigits_lt hb)
  rw [this, digitsToNat_padDigits hb, Int.toNat_of_nonneg hv0]

theorem upToNul_name (name rest : List Nat) (hnul : ∀ c ∈ name, c ≠ 0) :
    upToNul (name ++ 0 :: rest) = name := by
  induction name with
  | nil => simp [upToNul]
  | cons c tl ih =>
    simp only [List.cons_append]
    unfold upToNul
    rw [List.takeWhile_cons]
    rw [decide_eq_true (hnul c (by simp))]
    simp only [if_pos]
    have := ih (fun x hx => hnul x (by simp [hx]))
    simp only [upToNul] at this
    rw [this]

/-! ### Writer behavior on a clean state -/

/-- The payload padding each serialization path arms (writer side). -/
def padOf (h : Header) : Int :=
  match h.Encoding with
  | .asciiSUSv2 => 0
  | .asciiSVR4 | .asciiSVR4CRC =>
    let m := Int.tmod h.Size 4
    if m > 0 then 4 - m else m
  | .binaryLE | .binaryBE => Int.tmod h.Size 2

theorem flush_clean (ws : WState) (he : ws.err = none) (hnb : ¬ws.nb > 0)
    (hres : ws.wres = []) :
    WState.flush ws =
      (none, { ws with out := ws.out ++ List.replicate ws.pad.toNat 0, pad := 0 }) := by
  obtain ⟨o, e, c, nb, p, f, en, res⟩ := ws
  simp only at he hnb hres
  subst he hres
  unfold WState.flush
  rw [if_neg hnb]
  by_cases hp : p = 0
  · subst hp
    simp [uwrite]
  · rw [if_neg hp]
    simp [uwrite]

theorem writeHeader_clean (ws : WState) (h : Header) (hc : ws.closed = false)
    (he : ws.err = none) (hnb : ws.nb = 0) (hres : ws.wres = []) :
    WState.writeHeader ws h =
      (none, { ws with
        out := ws.out ++ List.replicate ws.pad.toNat 0 ++ encodeHeader h,
        pad := padOf h, nb := h.Size, first := true,
        enc := if ws.first then ws.enc else h.Encoding }) := by
  unfold WState.writeHeader
  rw [hc]
  simp only [Bool.false_eq_true, if_false]
  rw [if_pos he]
  rw [flush_clean ws he (by omega) hres]
  obtain ⟨o, e, c, nb, p, f, en, res⟩ := ws
  simp only at he hnb hres hc
  subst he hres hnb hc
  simp only
  cases f <;> cases henc : h.Encoding <;>
    simp [WState.nextASCIISUSv2, WState.nextASCIISVR4, WState.writeBinary,
      uwrite, encodeHeader, encodeBinary, padOf, henc, List.append_assoc]

theorem write_all (ws : WState) (b : List Nat) (hc : ws.closed = false)
    (hres : ws.wres = []) (hnb : ws.nb = (b.length : Int)) :
    WState.write ws b =
      ((b.length, none), { ws with out := ws.out ++ b, nb := 0, err := none }) := by
  obtain ⟨o, e, c, nb, p, f, en, res⟩ := ws
  simp only at hc hres hnb
  subst hc hres hnb
  unfold WState.write
  simp [uwrite]

theorem close_clean (ws : WState) (hc : ws.closed = false)
    (he : ws.err = none) (hnb : ws.nb = 0) (hres : ws.wres = []) :
    WState.close ws =
      (none, { ws with
        out := ws.out ++ List.replicate ws.pad.toNat 0 ++
          encodeHeader (trailerHdr ws.enc),
        pad := 0, nb := 0, closed := true, first := true, err := none }) := by
  obtain ⟨o, e, c, nb, p, f, en, res⟩ := ws
  simp only at hc he hnb hres
  subst hc he hnb hres
  unfold WState.close
  rw [if_neg (by simp)]
  rw [writeHeader_clean _ _ rfl rfl rfl rfl]
  cases en <;> cases f <;>
    (dsimp only
     rw [flush_clean _ rfl (by simp [trailerHdr]) rfl]
     simp [padOf, trailerHdr])

/-! ### Reader round-trip lemmas -/

theorem scan1_oct6 (v : Int) (rest : List Nat) (h0 : 0 ≤ v) (hv : v < 8 ^ 6) :
    scan1 8 6 { input := oct6 v ++ rest, ok := true } =
      (v, { input := rest, ok := true }) := by
  unfold oct6
  exact scan1_format v rest (by norm_num) (by norm_num) (by norm_num) h0 (by omega)

theorem scan1_oct11 (v : Int) (rest : List Nat) (h0 : 0 ≤ v) (hv : v < 8 ^ 11) :
    scan1 8 11 { input := oct11 v ++ rest, ok := true } =
      (v, { input := rest, ok := true }) := by
  unfold oct11
  exact scan1_format v rest (by norm_num) (by norm_num) (by norm_num) h0 (by omega)

theorem scan1_hex8 (v : Int) (rest : List Nat) (h0 : 0 ≤ v) (hv : v < 16 ^ 8) :
    scan1 16 8 { input := hex8 v ++ rest, ok := true } =
      (v, { input := rest, ok := true }) := by
  unfold hex8
  exact scan1_format v rest (by norm_num) (by norm_num) (by norm_num) h0 (by omega)

/-- The header the Reader reconstructs from a SUSv2 record of `h` (the
fields the odc format does not carry are zero). -/
def susv2Read (h : Header) : Header :=
  { Name := h.Name, Mode := h.Mode, DevMajor := 0, DevMinor := h.DevMinor,
    Inode := h.Inode, UID := h.UID, GID := h.GID, NLink := h.NLink,
    RDevMajor := 0, RDevMinor := h.RDevMinor, ModTime := h.ModTime,
    Size := h.Size, Checksum := 0, Encoding := .asciiSUSv2 }

/-- Field-width constraints under which a header is exactly representable
in the SUSv2 (odc) wire format. -/
def fitsSUSv2 (h : Header) : Prop :=
  (0 ≤ h.DevMinor ∧ h.DevMinor < 8 ^ 6) ∧ (0 ≤ h.Inode ∧ h.Inode < 8 ^ 6) ∧
  (0 ≤ h.Mode ∧ h.Mode < 8 ^ 6) ∧ (0 ≤ h.UID ∧ h.UID < 8 ^ 6) ∧
  (0 ≤ h.GID ∧ h.GID < 8 ^ 6) ∧ (0 ≤ h.NLink ∧ h.NLink < 8 ^ 6) ∧
  (0 ≤ h.RDevMinor ∧ h.RDevMinor < 8 ^ 6) ∧
  (0 ≤ h.ModTime ∧ h.ModTime < 8 ^ 11) ∧
  (0 ≤ h.Size ∧ h.Size < 8 ^ 11) ∧ h.Name.length + 1 < 8 ^ 6

theorem next_encodeSUSv2 (h : Header) (tail : List Nat)
    (hfit : fitsSUSv2 h) (hnul : ∀ c ∈ h.Name, c ≠ 0)
    (htr : ¬(h.Name = trailerName ∧ h.Size = 0)) :
    Reader.next (initReader (encodeSUSv2 h ++ tail)) =
      (.ok (susv2Read h),
       { input := tail, err := none, lr := some h.Size, align := 0 }) := by
  obtain ⟨hDev, hIno, hMod, hUid, hGid, hNlk, hRdv, hMt, hSz, hNm⟩ := hfit
  have e1 : encodeSUSv2 h ++ tail =
      [48, 55] ++ ([48, 55, 48, 55] ++
        (oct6 h.DevMinor ++ (oct6 h.Inode ++ (oct6 h.Mode ++ (oct6 h.UID ++
         (oct6 h.GID ++ (oct6 h.NLink ++ (oct6 h.RDevMinor ++
         (oct11 h.ModTime ++ (oct6 ((h.Name.length : Int) + 1) ++
         (oct11 h.Size ++ ((h.Name ++ [0]) ++ tail)))))))))))) := by
    simp [encodeSUSv2, List.append_assoc]
  rw [e1]
  unfold Reader.next initReader
  dsimp only
  rw [readFull_ok 2 [48, 55] _ rfl]
  dsimp only
  rw [if_neg (by decide), if_neg (by decide), if_pos (by decide)]
  unfold Reader.nextASCII
  dsimp only
  rw [readFull_ok 4 [48, 55, 48, 55] _ rfl]
  dsimp only
  rw [if_pos rfl]
  unfold Reader.nextASCIISUSv2
  dsimp only
  rw [scan1_oct6 _ _ hDev.1 hDev.2]
  dsimp only
  rw [scan1_oct6 _ _ hIno.1 hIno.2]
  dsimp only
  rw [scan1_oct6 _ _ hMod.1 hMod.2]
  dsimp only
  rw [scan1_oct6 _ _ hUid.1 hUid.2]
  dsimp only
  rw [scan1_oct6 _ _ hGid.1 hGid.2]
  dsimp only
  rw [scan1_oct6 _ _ hNlk.1 hNlk.2]
  dsimp only
  rw [scan1_oct6 _ _ hRdv.1 hRdv.2]
  dsimp only
  rw [scan1_oct11 _ _ hMt.1 hMt.2]
  dsimp only
  rw [scan1_oct6 ((h.Name.length : Int) + 1) _ (by omega) (by omega)]
  dsimp only
  rw [scan1_oct11 _ _ hSz.1 hSz.2]
  dsimp only
  unfold Reader.nextName
  dsimp only
  have hp : ((h.Name.length : Int) + 1).toNat = (h.Name ++ [0]).length := by
    simp
  rw [hp, readFull_ok _ (h.Name ++ [0]) tail rfl]
  dsimp only
  have hname : upToNul (h.Name ++ [0]) = h.Name := upToNul_name h.Name [] hnul
  rw [hname, if_neg htr]
  simp [susv2Read]

theorem tmod_natCast (m n : Nat) :
    Int.tmod (m : Int) (n : Int) = ((m % n : Nat) : Int) := by
  rw [Int.tmod_eq_emod (by positivity) (by positivity)]
  exact (Int.natCast_mod m n).symm

theorem tdiv_natCast (m n : Nat) :
    Int.tdiv (m : Int) (n : Int) = ((m / n : Nat) : Int) := by
  rw [Int.tdiv_eq_ediv (by positivity) (by positivity)]
  exact (Int.natCast_div m n).symm

/-- Field-width constraints under which a header is exactly representable
in the SVR4 (newc/crc) wire format. -/
def fitsSVR4 (h : Header) : Prop :=
  (0 ≤ h.Inode ∧ h.Inode < 16 ^ 8) ∧ (0 ≤ h.Mode ∧ h.Mode < 16 ^ 8) ∧
  (0 ≤ h.UID ∧ h.UID < 16 ^ 8) ∧ (0 ≤ h.GID ∧ h.GID < 16 ^ 8) ∧
  (0 ≤ h.NLink ∧ h.NLink < 16 ^ 8) ∧ (0 ≤ h.ModTime ∧ h.ModTime < 16 ^ 8) ∧
  (0 ≤ h.Size ∧ h.Size < 16 ^ 8) ∧ (0 ≤ h.DevMajor ∧ h.DevMajor < 16 ^ 8) ∧
  (0 ≤ h.DevMinor ∧ h.DevMinor < 16 ^ 8) ∧
  (0 ≤ h.RDevMajor ∧ h.RDevMajor < 16 ^ 8) ∧
  (0 ≤ h.RDevMinor ∧ h.RDevMinor < 16 ^ 8) ∧
  (0 ≤ h.Checksum ∧ h.Checksum < 16 ^ 8) ∧ h.Name.length + 1 < 16 ^ 8

/-- The name padding of an SVR4 record for a name of length `len`. -/
def svr4padList (len : Nat) : List Nat :=
  if (len + 3) % 4 > 0 then List.replicate (4 - (len + 3) % 4) 0 else []

/-- The header the Reader reconstructs from an SVR4 record of `h` (every
field of the newc format round-trips). -/
def svr4Read (h : Header) (enc : EncodingType) : Header :=
  { Name := h.Name, Mode := h.Mode, DevMajor := h.DevMajor,
    DevMinor := h.DevMinor, Inode := h.Inode, UID := h.UID, GID := h.GID,
    NLink := h.NLink, RDevMajor := h.RDevMajor, RDevMinor := h.RDevMinor,
    ModTime := h.ModTime, Size := h.Size, Checksum := h.Checksum,
    Encoding := enc }

theorem tmod_cast4 (m : Nat) : Int.tmod (m : Int) 4 = ((m % 4 : Nat) : Int) := by
  simpa using tmod_natCast m 4

theorem nextASCIISVR4_fields (h : Header) (enc : EncodingType) (tail : List Nat)
    (hfit : fitsSVR4 h) (hnul : ∀ c ∈ h.Name, c ≠ 0)
    (htr : ¬(h.Name = trailerName ∧ h.Size = 0))
    (he2 : enc = .asciiSVR4 ∨ enc = .asciiSVR4CRC) :
    ∃ a, Reader.nextASCIISVR4
      { input := hex8 h.Inode ++ (hex8 h.Mode ++ (hex8 h.UID ++ (hex8 h.GID ++
         (hex8 h.NLink ++ (hex8 h.ModTime ++ (hex8 h.Size ++ (hex8 h.DevMajor ++
         (hex8 h.DevMinor ++ (hex8 h.RDevMajor ++ (hex8 h.RDevMinor ++
         (hex8 ((h.Name.length + 1 : Nat) : Int) ++ (hex8 h.Checksum ++
         ((h.Name ++ 0 :: svr4padList h.Name.length) ++ tail))))))))))))),
        err := none, lr := none, align := 0 } enc =
      (.ok (svr4Read h enc),
       { input := tail, err := none, lr := some h.Size, align := a }) := by
  obtain ⟨hIno, hMod, hUid, hGid, hNlk, hMt, hSz, hDM, hDm, hRM, hRm, hCk, hNm⟩ := hfit
  have hrem4 : (h.Name.length + 3) % 4 < 4 := Nat.mod_lt _ (by norm_num)
  unfold Reader.nextASCIISVR4
  dsimp only
  rw [scan1_hex8 _ _ hIno.1 hIno.2]
  dsimp only
  rw [scan1_hex8 _ _ hMod.1 hMod.2]
  dsimp only
  rw [scan1_hex8 _ _ hUid.1 hUid.2]
  dsimp only
  rw [scan1_hex8 _ _ hGid.1 hGid.2]
  dsimp only
  rw [scan1_hex8 _ _ hNlk.1 hNlk.2]
  dsimp only
  rw [scan1_hex8 _ _ hMt.1 hMt.2]
  dsimp only
  rw [scan1_hex8 _ _ hSz.1 hSz.2]
  dsimp only
  rw [scan1_hex8 _ _ hDM.1 hDM.2]
  dsimp only
  rw [scan1_hex8 _ _ hDm.1 hDm.2]
  dsimp only
  rw [scan1_hex8 _ _ hRM.1 hRM.2]
  dsimp only
  rw [scan1_hex8 _ _ hRm.1 hRm.2]
  dsimp only
  rw [scan1_hex8 ((h.Name.length + 1 : Nat) : Int) _ (by positivity) (by exact_mod_cast hNm)]
  dsimp only
  rw [scan1_hex8 _ _ hCk.1 hCk.2]
  dsimp only
  rw [if_pos rfl]
  unfold Reader.nextName
  rcases he2 with rfl | rfl <;>
  · dsimp only
    by_cases hr : (h.Name.length + 3) % 4 = 0
    · rw [show Int.tmod (((h.Name.length + 1 : Nat) : Int) + 2) 4 = 0 by
        rw [show (((h.Name.length + 1 : Nat) : Int) + 2) = ((h.Name.length + 3 : Nat) : Int) by
          push_cast; ring, tmod_cast4, hr]
        rfl]
      rw [if_neg (by norm_num)]
      rw [show svr4padList h.Name.length = [] by simp [svr4padList, hr]]
      rw [show ((h.Name.length + 1 : Nat) : Int).toNat = (h.Name ++ 0 :: ([] : List Nat)).length by simp]
      rw [readFull_ok _ (h.Name ++ 0 :: ([] : List Nat)) tail rfl]
      dsimp only
      rw [upToNul_name h.Name [] hnul, if_neg htr]
      exact ⟨_, rfl⟩
    · have hrpos : 0 < (h.Name.length + 3) % 4 := Nat.pos_of_ne_zero hr
      rw [show Int.tmod (((h.Name.length + 1 : Nat) : Int) + 2) 4 = (((h.Name.length + 3) % 4 : Nat) : Int) by
        rw [show (((h.Name.length + 1 : Nat) : Int) + 2) = ((h.Name.length + 3 : Nat) : Int) by
          push_cast; ring, tmod_cast4]]
      rw [if_pos (by exact_mod_cast hrpos)]
      rw [show svr4padList h.Name.length = List.replicate (4 - (h.Name.length + 3) % 4) 0 by
        simp only [svr4padList, gt_iff_lt, hrpos, if_true]]
      rw [show (((h.Name.length + 1 : Nat) : Int) + (4 - (((h.Name.length + 3) % 4 : Nat) : Int))).toNat =
          (h.Name ++ 0 :: List.replicate (4 - (h.Name.length + 3) % 4) 0).length by
        simp only [List.length_append, List.length_cons, List.length_replicate]
        omega]
      rw [readFull_ok _ (h.Name ++ 0 :: List.replicate (4 - (h.Name.length + 3) % 4) 0) tail rfl]
      dsimp only
      rw [upToNul_name h.Name _ hnul, if_neg htr]
      exact ⟨_, rfl⟩

theorem next_encodeSVR4 (h : Header) (tail : List Nat)
    (hfit : fitsSVR4 h) (hnul : ∀ c ∈ h.Name, c ≠ 0)
    (htr : ¬(h.Name = trailerName ∧ h.Size = 0))
    (henc : h.Encoding = .asciiSVR4 ∨ h.Encoding = .asciiSVR4CRC) :
    ∃ a, Reader.next (initReader (encodeSVR4 h ++ tail)) =
      (.ok h,
       { input := tail, err := none, lr := some h.Size, align := a }) := by
  have hself : ∀ enc, h.Encoding = enc → svr4Read h enc = h := by
    intro enc he
    obtain ⟨nm, mo, dM, dm, ino, uid, gid, nl, rM, rm, mt, sz, ck, e⟩ := h
    simp only at he
    subst he
    rfl
  rcases henc with henc | henc
  · have e1 : encodeSVR4 h ++ tail =
        [48, 55] ++ ([48, 55, 48, 49] ++
          (hex8 h.Inode ++ (hex8 h.Mode ++ (hex8 h.UID ++ (hex8 h.GID ++
           (hex8 h.NLink ++ (hex8 h.ModTime ++ (hex8 h.Size ++ (hex8 h.DevMajor ++
           (hex8 h.DevMinor ++ (hex8 h.RDevMajor ++ (hex8 h.RDevMinor ++
           (hex8 ((h.Name.length + 1 : Nat) : Int) ++ (hex8 h.Checksum ++
           ((h.Name ++ 0 :: svr4padList h.Name.length) ++ tail))))))))))))))) := by
      simp [encodeSVR4, henc, encVal, svr4padList, List.append_assoc]
    rw [e1]
    unfold Reader.next initReader
    dsimp only
    rw [readFull_ok 2 [48, 55] _ rfl]
    dsimp only
    rw [if_neg (by decide), if_neg (by decide), if_pos (by decide)]
    unfold Reader.nextASCII
    dsimp only
    rw [readFull_ok 4 [48, 55, 48, 49] _ rfl]
    dsimp only
    rw [if_neg (by decide), if_pos (by decide)]
    obtain ⟨a, hf⟩ := nextASCIISVR4_fields h .asciiSVR4 tail
      ⟨hfit.1, hfit.2.1, hfit.2.2.1, hfit.2.2.2.1, hfit.2.2.2.2.1, hfit.2.2.2.2.2.1,
       hfit.2.2.2.2.2.2.1, hfit.2.2.2.2.2.2.2.1, hfit.2.2.2.2.2.2.2.2.1,
       hfit.2.2.2.2.2.2.2.2.2.1, hfit.2.2.2.2.2.2.2.2.2.2.1,
       hfit.2.2.2.2.2.2.2.2.2.2.2.1, hfit.2.2.2.2.2.2.2.2.2.2.2.2⟩
      hnul htr (Or.inl rfl)
    rw [hf, hself _ henc]
    exact ⟨a, rfl⟩
  · have e1 : encodeSVR4 h ++ tail =
        [48, 55] ++ ([48, 55, 48, 50] ++
          (hex8 h.Inode ++ (hex8 h.Mode ++ (hex8 h.UID ++ (hex8 h.GID ++
           (hex8 h.NLink ++ (hex8 h.ModTime ++ (hex8 h.Size ++ (hex8 h.DevMajor ++
           (hex8 h.DevMinor ++ (hex8 h.RDevMajor ++ (hex8 h.RDevMinor ++
           (hex8 ((h.Name.length + 1 : Nat) : Int) ++ (hex8 h.Checksum ++
           ((h.Name ++ 0 :: svr4padList h.Name.length) ++ tail))))))))))))))) := by
      simp [encodeSVR4, henc, encVal, svr4padList, List.append_assoc]
    rw [e1]
    unfold Reader.next initReader
    dsimp only
    rw [readFull_ok 2 [48, 55] _ rfl]
    dsimp only
    rw [if_neg (by decide), if_neg (by decide), if_pos (by decide)]
    unfold Reader.nextASCII
    dsimp only
    rw [readFull_ok 4 [48, 55, 48, 50] _ rfl]
    dsimp only
    rw [if_neg (by decide), if_neg (by decide), if_pos (by decide)]
    obtain ⟨a, hf⟩ := nextASCIISVR4_fields h .asciiSVR4CRC tail
      ⟨hfit.1, hfit.2.1, hfit.2.2.1, hfit.2.2.2.1, hfit.2.2.2.2.1, hfit.2.2.2.2.2.1,
       hfit.2.2.2.2.2.2.1, hfit.2.2.2.2.2.2.2.1, hfit.2.2.2.2.2.2.2.2.1,
       hfit.2.2.2.2.2.2.2.2.2.1, hfit.2.2.2.2.2.2.2.2.2.2.1,
       hfit.2.2.2.2.2.2.2.2.2.2.2.1, hfit.2.2.2.2.2.2.2.2.2.2.2.2⟩
      hnul htr (Or.inr rfl)
    rw [hf, hself _ henc]
    exact ⟨a, rfl⟩

/-- Field-width constraints under which a header is exactly representable
in the binary wire format. -/
def fitsBinary (h : Header) : Prop :=
  (0 ≤ h.DevMinor ∧ h.DevMinor < 2 ^ 16) ∧ (0 ≤ h.Inode ∧ h.Inode < 2 ^ 16) ∧
  (0 ≤ h.Mode ∧ h.Mode < 2 ^ 16) ∧ (0 ≤ h.UID ∧ h.UID < 2 ^ 16) ∧
  (0 ≤ h.GID ∧ h.GID < 2 ^ 16) ∧ (0 ≤ h.NLink ∧ h.NLink < 2 ^ 16) ∧
  (0 ≤ h.RDevMinor ∧ h.RDevMinor < 2 ^ 16) ∧
  (0 ≤ h.ModTime ∧ h.ModTime < 2 ^ 32) ∧ (0 ≤ h.Size ∧ h.Size < 2 ^ 32) ∧
  h.Name.length + 1 < 2 ^ 16

/-- The header the Reader reconstructs from a binary record of `h` (the
fields the binary format does not carry are zero). -/
def binRead (h : Header) (enc : EncodingType) : Header :=
  { Name := h.Name, Mode := h.Mode, DevMajor := 0, DevMinor := h.DevMinor,
    Inode := h.Inode, UID := h.UID, GID := h.GID, NLink := h.NLink,
    RDevMajor := 0, RDevMinor := h.RDevMinor, ModTime := h.ModTime,
    Size := h.Size, Checksum := 0, Encoding := enc }

theorem tmod_cast2 (m : Nat) : Int.tmod (m : Int) 2 = ((m % 2 : Nat) : Int) := by
  simpa using tmod_natCast m 2

theorem toU16_cast (x : Int) (h0 : 0 ≤ x) (hx : x < 65536) :
    ((toU16 x : Nat) : Int) = x := by
  unfold toU16
  rw [Int.emod_eq_of_lt h0 hx, Int.toNat_of_nonneg h0]

theorem binRecord_length (le : Bool) (h : Header) : (binRecord le h).length = 24 := by
  cases le <;> simp [binRecord, w16]

set_option maxHeartbeats 1600000 in
theorem get16_binRecord (le : Bool) (h : Header) :
    get16 le (binRecord le h) 0 = toU16 h.DevMinor ∧
    get16 le (binRecord le h) 1 = toU16 h.Inode ∧
    get16 le (binRecord le h) 2 = toU16 h.Mode ∧
    get16 le (binRecord le h) 3 = toU16 h.UID ∧
    get16 le (binRecord le h) 4 = toU16 h.GID ∧
    get16 le (binRecord le h) 5 = toU16 h.NLink ∧
    get16 le (binRecord le h) 6 = toU16 h.RDevMinor ∧
    get16 le (binRecord le h) 7 = toU16 (Int.tdiv h.ModTime 65536) ∧
    get16 le (binRecord le h) 8 = toU16 (Int.tmod h.ModTime 65536) ∧
    get16 le (binRecord le h) 9 = toU16 ((h.Name.length : Int) + 1) ∧
    get16 le (binRecord le h) 10 = toU16 (Int.tdiv h.Size 65536) ∧
    get16 le (binRecord le h) 11 = toU16 (Int.tmod h.Size 65536) := by
  cases le
  · exact ⟨Nat.div_add_mod _ 256, Nat.div_add_mod _ 256, Nat.div_add_mod _ 256,
      Nat.div_add_mod _ 256, Nat.div_add_mod _ 256, Nat.div_add_mod _ 256,
      Nat.div_add_mod _ 256, Nat.div_add_mod _ 256, Nat.div_add_mod _ 256,
      Nat.div_add_mod _ 256, Nat.div_add_mod _ 256, Nat.div_add_mod _ 256⟩
  · exact ⟨Nat.mod_add_div _ 256, Nat.mod_add_div _ 256, Nat.mod_add_div _ 256,
      Nat.mod_add_div _ 256, Nat.mod_add_div _ 256, Nat.mod_add_div _ 256,
      Nat.mod_add_div _ 256, Nat.mod_add_div _ 256, Nat.mod_add_div _ 256,
      Nat.mod_add_div _ 256, Nat.mod_add_div _ 256, Nat.mod_add_div _ 256⟩

set_option maxHeartbeats 3200000 in
theorem next_encodeBinary (h : Header) (le : Bool) (tail : List Nat)
    (hfit : fitsBinary h) (hnul : ∀ c ∈ h.Name, c ≠ 0)
    (htr : ¬(h.Name = trailerName ∧ h.Size = 0))
    (henc : h.Encoding = if le then .binaryLE else .binaryBE) :
    ∃ a, Reader.next (initReader (encodeBinary le h ++ tail)) =
      (.ok (binRead h h.Encoding),
       { input := tail, err := none, lr := some h.Size, align := a }) := by
  obtain ⟨hDev, hIno, hMod, hUid, hGid, hNlk, hRdv, hMt, hSz, hNm⟩ := hfit
  have hMtd : 0 ≤ Int.tdiv h.ModTime 65536 ∧ Int.tdiv h.ModTime 65536 < 65536 := by
    rw [Int.tdiv_eq_ediv hMt.1 (by norm_num)]
    omega
  have hMtm : 0 ≤ Int.tmod h.ModTime 65536 ∧ Int.tmod h.ModTime 65536 < 65536 := by
    rw [Int.tmod_eq_emod hMt.1 (by norm_num)]
    omega
  have hSzd : 0 ≤ Int.tdiv h.Size 65536 ∧ Int.tdiv h.Size 65536 < 65536 := by
    rw [Int.tdiv_eq_ediv hSz.1 (by norm_num)]
    omega
  have hSzm : 0 ≤ Int.tmod h.Size 65536 ∧ Int.tmod h.Size 65536 < 65536 := by
    rw [Int.tmod_eq_emod hSz.1 (by norm_num)]
    omega
  have hMtEq : 65536 * Int.tdiv h.ModTime 65536 + Int.tmod h.ModTime 65536 = h.ModTime := by
    rw [Int.tdiv_eq_ediv hMt.1 (by norm_num), Int.tmod_eq_emod hMt.1 (by norm_num)]
    exact Int.ediv_add_emod h.ModTime 65536
  have hSzEq : 65536 * Int.tdiv h.Size 65536 + Int.tmod h.Size 65536 = h.Size := by
    rw [Int.tdiv_eq_ediv hSz.1 (by norm_num), Int.tmod_eq_emod hSz.1 (by norm_num)]
    exact Int.ediv_add_emod h.Size 65536
  have hNmEq : ((h.Name.length : Int) + 1) = ((h.Name.length + 1 : Nat) : Int) := by
    push_cast; ring
  have hnbuf : h.Name ++ List.replicate (1 + (h.Name.length + 1) % 2) 0 =
      h.Name ++ 0 :: List.replicate ((h.Name.length + 1) % 2) 0 := by
    rw [Nat.add_comm, List.replicate_succ]
  have hplen : (((h.Name.length + 1 : Nat) : Int) + (((h.Name.length + 1) % 2 : Nat) : Int)).toNat =
      (h.Name ++ 0 :: List.replicate ((h.Name.length + 1) % 2) 0).length := by
    simp only [List.length_append, List.length_cons, List.length_replicate]
    omega
  obtain ⟨g0, g1, g2, g3, g4, g5, g6, g7, g8, g9, g10, g11⟩ := get16_binRecord le h
  cases le
  · simp only [Bool.false_eq_true, if_false] at henc
    have e1 : encodeBinary false h ++ tail =
        [113, 199] ++ (binRecord false h ++
          ((h.Name ++ 0 :: List.replicate ((h.Name.length + 1) % 2) 0) ++ tail)) := by
      rw [encodeBinary, hnbuf]
      have : w16 false 29127 = [113, 199] := by norm_num [w16]
      rw [this]
      simp [List.append_assoc]
    rw [e1]
    unfold Reader.next initReader
    dsimp only
    rw [readFull_ok 2 [113, 199] _ rfl]
    dsimp only
    rw [if_pos (by decide)]
    unfold Reader.nextBinary
    dsimp only
    rw [readFull_ok 24 (binRecord false h) _ (binRecord_length false h)]
    dsimp only
    rw [g0, g1, g2, g3, g4, g5, g6, g7, g8, g9, g10, g11]
    rw [toU16_cast _ hDev.1 (by omega), toU16_cast _ hIno.1 (by omega),
        toU16_cast _ hMod.1 (by omega), toU16_cast _ hUid.1 (by omega),
        toU16_cast _ hGid.1 (by omega), toU16_cast _ hNlk.1 (by omega),
        toU16_cast _ hRdv.1 (by omega),
        toU16_cast _ hMtd.1 hMtd.2, toU16_cast _ hMtm.1 hMtm.2,
        toU16_cast ((h.Name.length : Int) + 1) (by positivity) (by exact_mod_cast hNm),
        toU16_cast _ hSzd.1 hSzd.2, toU16_cast _ hSzm.1 hSzm.2]
    rw [hMtEq, hSzEq]
    unfold Reader.nextName
    simp only [Bool.false_eq_true, if_false]
    rw [hNmEq, tmod_cast2, hplen]
    rw [readFull_ok _ (h.Name ++ 0 :: List.replicate ((h.Name.length + 1) % 2) 0) tail rfl]
    dsimp only
    rw [upToNul_name h.Name _ hnul, if_neg htr]
    rw [henc]
    exact ⟨_, rfl⟩
  · simp only [if_true] at henc
    have e1 : encodeBinary true h ++ tail =
        [199, 113] ++ (binRecord true h ++
          ((h.Name ++ 0 :: List.replicate ((h.Name.length + 1) % 2) 0) ++ tail)) := by
      rw [encodeBinary, hnbuf]
      have : w16 true 29127 = [199, 113] := by norm_num [w16]
      rw [this]
      simp [List.append_assoc]
    rw [e1]
    unfold Reader.next initReader
    dsimp only
    rw [readFull_ok 2 [199, 113] _ rfl]
    dsimp only
    rw [if_neg (by decide), if_pos (by decide)]
    unfold Reader.nextBinary
    dsimp only
    rw [readFull_ok 24 (binRecord true h) _ (binRecord_length true h)]
    dsimp only
    rw [g0, g1, g2, g3, g4, g5, g6, g7, g8, g9, g10, g11]
    rw [toU16_cast _ hDev.1 (by omega), toU16_cast _ hIno.1 (by omega),
        toU16_cast _ hMod.1 (by omega), toU16_cast _ hUid.1 (by omega),
        toU16_cast _ hGid.1 (by omega), toU16_cast _ hNlk.1 (by omega),
        toU16_cast _ hRdv.1 (by omega),
        toU16_cast _ hMtd.1 hMtd.2, toU16_cast _ hMtm.1 hMtm.2,
        toU16_cast ((h.Name.length : Int) + 1) (by positivity) (by exact_mod_cast hNm),
        toU16_cast _ hSzd.1 hSzd.2, toU16_cast _ hSzm.1 hSzm.2]
    rw [hMtEq, hSzEq]
    unfold Reader.nextName
    simp only [if_true]
    rw [hNmEq, tmod_cast2, hplen]
    rw [readFull_ok _ (h.Name ++ 0 :: List.replicate ((h.Name.length + 1) % 2) 0) tail rfl]
    dsimp only
    rw [upToNul_name h.Name _ hnul, if_neg htr]
    rw [henc]
    exact ⟨_, rfl⟩

/-! ### Whole-pipeline round trip -/

theorem read_take (payload extra : List Nat) (a : Nat) :
    (RState.read
      ({ input := payload ++ extra, err := none,
         lr := some (payload.length : Int), align := a } : RState)
      payload.length).1.1 = payload := by
  unfold RState.read
  dsimp only
  cases payload with
  | nil => simp
  | cons c tl =>
    rw [if_neg (by
      simp only [List.length_cons]
      omega)]
    rw [show (((c :: tl).length : Int)).toNat = (c :: tl).length from by simp]
    rw [Nat.min_self]
    rw [if_neg (by simp)]
    rw [if_neg (by simp)]
    dsimp only
    rw [List.take_left]

/-- The bytes produced by `WriteHeader h; Write payload; Close` on a fresh
writer over a non-failing stream. -/
def c1bytes (h : Header) (payload : List Nat) : List Nat :=
  (WState.close (WState.write (WState.writeHeader (newWriter []) h).2 payload).2).2.out

theorem c1bytes_eq (h : Header) (payload : List Nat)
    (hsz : h.Size = (payload.length : Int)) :
    c1bytes h payload =
      encodeHeader h ++ payload ++
        (List.replicate (padOf h).toNat 0 ++ encodeHeader (trailerHdr h.Encoding)) := by
  unfold c1bytes newWriter
  rw [writeHeader_clean _ _ rfl rfl rfl rfl]
  dsimp only
  rw [write_all _ payload rfl rfl hsz]
  dsimp only
  rw [close_clean _ rfl rfl rfl rfl]
  dsimp only
  simp [List.append_assoc]

/-- The header Reader.Next reconstructs after a round trip of `h` through
its own encoding. -/
def readBack (h : Header) : Header :=
  match h.Encoding with
  | .asciiSUSv2 => susv2Read h
  | .asciiSVR4 => h
  | .asciiSVR4CRC => h
  | .binaryLE => binRead h h.Encoding
  | .binaryBE => binRead h h.Encoding

/-- Numeric fields fit the fixed field widths of the header's encoding. -/
def fits (h : Header) : Prop :=
  match h.Encoding with
  | .asciiSUSv2 => fitsSUSv2 h
  | .asciiSVR4 => fitsSVR4 h
  | .asciiSVR4CRC => fitsSVR4 h
  | .binaryLE => fitsBinary h
  | .binaryBE => fitsBinary h

instance decFitsSUSv2 (h : Header) : Decidable (fitsSUSv2 h) := by
  unfold fitsSUSv2
  infer_instance

instance decFitsSVR4 (h : Header) : Decidable (fitsSVR4 h) := by
  unfold fitsSVR4
  infer_instance

instance decFitsBinary (h : Header) : Decidable (fitsBinary h) := by
  unfold fitsBinary
  infer_instance

instance decFits (h : Header) : Decidable (fits h) := by
  unfold fits
  cases h.Encoding <;> infer_instance

/-- `h2` equals `h` on every field representable in `h`'s encoding: the
ten common fields plus Encoding always; DevMajor, RDevMajor and Checksum
additionally for the SVR4 family (the only encodings that carry them). -/
def agreesOn (h h2 : Header) : Prop :=
  h2.Name = h.Name ∧ h2.Mode = h.Mode ∧ h2.Inode = h.Inode ∧
  h2.UID = h.UID ∧ h2.GID = h.GID ∧ h2.NLink = h.NLink ∧
  h2.DevMinor = h.DevMinor ∧ h2.RDevMinor = h.RDevMinor ∧
  h2.ModTime = h.ModTime ∧ h2.Size = h.Size ∧ h2.Encoding = h.Encoding ∧
  ((h.Encoding = .asciiSVR4 ∨ h.Encoding = .asciiSVR4CRC) →
    h2.DevMajor = h.DevMajor ∧ h2.RDevMajor = h.RDevMajor ∧
    h2.Checksum = h.Checksum)

theorem agreesOn_readBack (h : Header) : agreesOn h (readBack h) := by
  cases henc : h.Encoding <;>
    simp [agreesOn, readBack, susv2Read, binRead, henc]

theorem roundtrip_first (h : Header) (payload : List Nat)
    (hfit : fits h) (hnul : ∀ c ∈ h.Name, c ≠ 0)
    (htr : ¬(h.Name = trailerName ∧ h.Size = 0))
    (hsz : h.Size = (payload.length : Int)) :
    (Reader.next (initReader (c1bytes h payload))).1 = .ok (readBack h) ∧
    (RState.read (Reader.next (initReader (c1bytes h payload))).2
      payload.length).1.1 = payload := by
  rw [c1bytes_eq h payload hsz, List.append_assoc]
  cases henc : h.Encoding
  case asciiSUSv2 =>
    have hfit2 : fitsSUSv2 h := by
      unfold fits at hfit
      rw [henc] at hfit
      exact hfit
    rw [show encodeHeader h = encodeSUSv2 h by unfold encodeHeader; rw [henc]]
    rw [next_encodeSUSv2 h _ hfit2 hnul htr]
    refine ⟨by rw [show readBack h = susv2Read h by unfold readBack; rw [henc]], ?_⟩
    rw [hsz]
    exact read_take payload _ 0
  case asciiSVR4 =>
    have hfit2 : fitsSVR4 h := by
      unfold fits at hfit
      rw [henc] at hfit
      exact hfit
    rw [show encodeHeader h = encodeSVR4 h by unfold encodeHeader; rw [henc]]
    obtain ⟨a, hnext⟩ := next_encodeSVR4 h _ hfit2 hnul htr (Or.inl henc)
    rw [hnext]
    refine ⟨by rw [show readBack h = h by unfold readBack; rw [henc]], ?_⟩
    rw [hsz]
    exact read_take payload _ a
  case asciiSVR4CRC =>
    have hfit2 : fitsSVR4 h := by
      unfold fits at hfit
      rw [henc] at hfit
      exact hfit
    rw [show encodeHeader h = encodeSVR4 h by unfold encodeHeader; rw [henc]]
    obtain ⟨a, hnext⟩ := next_encodeSVR4 h _ hfit2 hnul htr (Or.inr henc)
    rw [hnext]
    refine ⟨by rw [show readBack h = h by unfold readBack; rw [henc]], ?_⟩
    rw [hsz]
    exact read_take payload _ a
  case binaryLE =>
    have hfit2 : fitsBinary h := by
      unfold fits at hfit
      rw [henc] at hfit
      exact hfit
    rw [show encodeHeader h = encodeBinary true h by unfold encodeHeader; rw [henc]]
    obtain ⟨a, hnext⟩ := next_encodeBinary h true _ hfit2 hnul htr (by rw [henc]; rfl)
    rw [hnext]
    refine ⟨by rw [show readBack h = binRead h h.Encoding by unfold readBack; rw [henc]], ?_⟩
    rw [hsz]
    exact read_take payload _ a
  case binaryBE =>
    have hfit2 : fitsBinary h := by
      unfold fits at hfit
      rw [henc] at hfit
      exact hfit
    rw [show encodeHeader h = encodeBinary false h by unfold encodeHeader; rw [henc]]
    obtain ⟨a, hnext⟩ := next_encodeBinary h false _ hfit2 hnul htr (by rw [henc]; rfl)
    rw [hnext]
    refine ⟨by rw [show readBack h = binRead h h.Encoding by unfold readBack; rw [henc]], ?_⟩
    rw [hsz]
    exact read_take payload _ a

/-! ### Claim C1 -/

set_option maxRecDepth 100000 in
/-- C1 counterexample: the claim quantifies over every header whose numeric
fields fit and whose Size equals the payload length, but for the header
with Name "TRAILER!!!" and Size 0 (all fields fit SUSv2, payload empty)
the sequence WriteHeader; Write; Close followed by Next does not yield a
header equal to it on the representable fields: Next returns the
end-of-archive signal (io.EOF) instead of a header. -/
theorem c1_trailer_not_returned :
    (Reader.next (initReader (c1bytes (trailerHdr .asciiSUSv2) []))).1 =
      .error .eofR := by
  decide

/-- C1 (amended): for every encoding E and every header h with Encoding = E
whose numeric fields fit E's fixed field widths, whose Name contains no NUL
byte and is not the end-of-archive sentinel ("TRAILER!!!" with Size 0), and
whose Size equals the payload length, WriteHeader(h); Write(payload);
Close() followed by Next() on the produced bytes yields a header equal to h
on every field representable in E, and reading the entry yields the payload
byte-for-byte. -/
theorem c1_roundtrip (h : Header) (payload : List Nat)
    (hfit : fits h) (hnul : ∀ c ∈ h.Name, c ≠ 0)
    (htr : ¬(h.Name = trailerName ∧ h.Size = 0))
    (hsz : h.Size = (payload.length : Int)) :
    (Reader.next (initReader (c1bytes h payload))).1 = .ok (readBack h) ∧
    agreesOn h (readBack h) ∧
    (RState.read (Reader.next (initReader (c1bytes h payload))).2
      payload.length).1.1 = payload :=
  ⟨(roundtrip_first h payload hfit hnul htr hsz).1, agreesOn_readBack h,
   (roundtrip_first h payload hfit hnul htr hsz).2⟩

/-- The header of the repository's own reader/writer tests (hello.txt,
Checksum only set for the crc encoding). -/
def testHeader (e : EncodingType) : Header :=
  { Name := [104, 101, 108, 108, 111, 46, 116, 120, 116], Mode := 33204,
    DevMajor := 0, DevMinor := 44, Inode := 1337, UID := 1000, GID := 1000,
    NLink := 1, RDevMajor := 0, RDevMinor := 0, ModTime := 1337, Size := 6,
    Checksum := if e = .asciiSVR4CRC then 562 else 0, Encoding := e }

/-- The test payload "world\n". -/
def worldPayload : List Nat := [119, 111, 114, 108, 100, 10]

/-- Witness for C1 at the repository's own test vector (crc encoding). -/
theorem c1_roundtrip_witness :
    (Reader.next (initReader (c1bytes (testHeader .asciiSVR4CRC) worldPayload))).1 =
        .ok (readBack (testHeader .asciiSVR4CRC)) ∧
    agreesOn (testHeader .asciiSVR4CRC) (readBack (testHeader .asciiSVR4CRC)) ∧
    (RState.read (Reader.next (initReader (c1bytes (testHeader .asciiSVR4CRC) worldPayload))).2
      worldPayload.length).1.1 = worldPayload :=
  c1_roundtrip (testHeader .asciiSVR4CRC) worldPayload (by decide) (by decide)
    (by decide) (by decide)

/-! ### Claim C6 -/

/-- A plain-SVR4 (non-CRC) header carrying a nonzero Checksum. -/
def c6hdr : Header :=
  { Name := [97], Mode := 0, DevMajor := 0, DevMinor := 0, Inode := 0,
    UID := 0, GID := 0, NLink := 1, RDevMajor := 0, RDevMinor := 0,
    ModTime := 0, Size := 0, Checksum := 5, Encoding := .asciiSVR4 }

set_option maxRecDepth 100000 in
/-- C6 counterexample: for Encoding = ASCII-SVR4 (not the CRC variant) the
claim says the header produced by the Reader has Checksum 0 regardless of
the written value, but the writer emits the Checksum field for both SVR4
variants and the reader parses it back: writing `c6hdr` (Checksum 5) and
reading it back returns the full header with Checksum 5, not 0. -/
theorem c6_svr4_checksum_not_zeroed :
    (Reader.next (initReader (c1bytes c6hdr []))).1 = .ok c6hdr ∧
    c6hdr.Checksum = 5 ∧ c6hdr.Encoding = .asciiSVR4 := by
  constructor
  · decide
  · exact ⟨rfl, rfl⟩

/-- C6 (amended): the Checksum field survives a write-then-read round trip
unchanged when Encoding is ASCII-SVR4 or ASCII-SVR4-CRC (the wire format is
identical and both carry the field); for SUSv2 and the two binary encodings
the header produced by the Reader has Checksum 0 regardless of the written
value. -/
theorem c6_checksum_roundtrip (h : Header) (payload : List Nat)
    (hfit : fits h) (hnul : ∀ c ∈ h.Name, c ≠ 0)
    (htr : ¬(h.Name = trailerName ∧ h.Size = 0))
    (hsz : h.Size = (payload.length : Int)) :
    (Reader.next (initReader (c1bytes h payload))).1 = .ok (readBack h) ∧
    ((h.Encoding = .asciiSVR4 ∨ h.Encoding = .asciiSVR4CRC) →
      (readBack h).Checksum = h.Checksum) ∧
    ((h.Encoding = .asciiSUSv2 ∨ h.Encoding = .binaryLE ∨ h.Encoding = .binaryBE) →
      (readBack h).Checksum = 0) := by
  refine ⟨(roundtrip_first h payload hfit hnul htr hsz).1, ?_, ?_⟩ <;>
    cases henc : h.Encoding <;>
      simp [readBack, susv2Read, binRead, henc]

/-- Witness for C6 at the repository's test vector under plain SVR4. -/
theorem c6_checksum_roundtrip_witness :
    (Reader.next (initReader (c1bytes (testHeader .asciiSVR4) worldPayload))).1 =
        .ok (readBack (testHeader .asciiSVR4)) ∧
    (((testHeader .asciiSVR4).Encoding = .asciiSVR4 ∨
        (testHeader .asciiSVR4).Encoding = .asciiSVR4CRC) →
      (readBack (testHeader .asciiSVR4)).Checksum = (testHeader .asciiSVR4).Checksum) ∧
    (((testHeader .asciiSVR4).Encoding = .asciiSUSv2 ∨
        (testHeader .asciiSVR4).Encoding = .binaryLE ∨
        (testHeader .asciiSVR4).Encoding = .binaryBE) →
      (readBack (testHeader .asciiSVR4)).Checksum = 0) :=
  c6_checksum_roundtrip (testHeader .asciiSVR4) worldPayload (by decide) (by decide)
    (by decide) (by decide)

/-! ### Claim C4 -/

/-- C4 (confirmed): on an open Writer over a working stream with remaining
declared payload nb ≥ 0, a Write of more than nb bytes forwards exactly the
first nb bytes to the underlying stream, sets the remaining counter to
zero, and returns ErrWriteTooLong (note the stored error is untouched). -/
theorem c4_write_too_long (ws : WState) (b : List Nat)
    (hc : ws.closed = false) (hres : ws.wres = [])
    (h0 : 0 ≤ ws.nb) (hover : ws.nb < (b.length : Int)) :
    WState.write ws b =
      ((ws.nb.toNat, some .tooLong),
       { ws with out := ws.out ++ b.take ws.nb.toNat, nb := 0 }) := by
  obtain ⟨o, e, c, nb, p, f, en, res⟩ := ws
  simp only at hc hres h0 hover
  subst hc hres
  have hlen : (b.take nb.toNat).length = nb.toNat := by
    rw [List.length_take]
    omega
  have hnb0 : nb - ((b.take nb.toNat).length : Int) = 0 := by
    rw [hlen]
    omega
  unfold WState.write
  dsimp only
  rw [if_neg Bool.false_ne_true]
  rw [if_pos (decide_eq_true hover)]
  unfold uwrite
  dsimp only
  rw [if_pos ⟨rfl, decide_eq_true hover⟩]
  rw [hnb0, hlen]

/-- Witness for C4: writing 3 bytes into an entry with 2 remaining. -/
theorem c4_write_too_long_witness :
    WState.write
      { out := [7], err := none, closed := false, nb := 2, pad := 0,
        first := true, enc := .asciiSVR4, wres := [] } [1, 2, 3] =
      ((2, some .tooLong),
       { out := [7, 1, 2], err := none, closed := false, nb := 0, pad := 0,
         first := true, enc := .asciiSVR4, wres := [] }) := by
  have := c4_write_too_long
    { out := [7], err := none, closed := false, nb := 2, pad := 0,
      first := true, enc := .asciiSVR4, wres := [] } [1, 2, 3]
    rfl rfl (by decide) (by decide)
  rw [this]
  rfl

/-! ### Claim C5 -/

/-- The padded name-field length Reader.nextName reads, per encoding. -/
def padName (e : EncodingType) (p : Int) : Int :=
  match e with
  | .binaryLE | .binaryBE => p + Int.tmod p 2
  | .asciiSVR4 | .asciiSVR4CRC =>
    let rem := Int.tmod (p + 2) 4
    if rem > 0 then p + (4 - rem) else p
  | .asciiSUSv2 => p

/-- C5 (confirmed): with no stored error and enough input for the padded
name field, Reader.nextName returns the end-of-archive signal exactly when
the decoded name is "TRAILER!!!" and the header's Size is 0 — under any of
the five encodings — and otherwise returns the ordinary header with the
decoded name. -/
theorem c5_trailer_detection (s : RState) (hdr : Header) (p : Int)
    (he : s.err = none)
    (hin : (padName hdr.Encoding p).toNat ≤ s.input.length) :
    ((Reader.nextName s hdr p).1 = .error .eofR ↔
      (upToNul (s.input.take (padName hdr.Encoding p).toNat) = trailerName ∧
        hdr.Size = 0)) ∧
    (¬(upToNul (s.input.take (padName hdr.Encoding p).toNat) = trailerName ∧
        hdr.Size = 0) →
      (Reader.nextName s hdr p).1 =
        .ok { hdr with
          Name := upToNul (s.input.take (padName hdr.Encoding p).toNat) }) := by
  obtain ⟨pn, hpn⟩ : ∃ pn, pn = padName hdr.Encoding p := ⟨_, rfl⟩
  rw [← hpn] at hin ⊢
  unfold Reader.nextName
  rw [he]
  dsimp only
  cases henc : hdr.Encoding
  case asciiSUSv2 =>
    rw [show p = pn by rw [hpn, henc]; rfl]
    unfold readFull
    rw [if_pos hin]
    dsimp only
    by_cases hc : upToNul (s.input.take pn.toNat) = trailerName ∧ hdr.Size = 0
    · rw [if_pos hc]
      exact ⟨⟨fun _ => hc, fun _ => rfl⟩, fun hn2 => absurd hc hn2⟩
    · rw [if_neg hc]
      exact ⟨⟨fun hx2 => absurd hx2 (by simp), fun hx2 => absurd hx2 hc⟩,
        fun _ => rfl⟩
  case asciiSVR4 =>
    rw [show (if Int.tmod (p + 2) 4 > 0 then p + (4 - Int.tmod (p + 2) 4) else p) = pn by
      rw [hpn, henc]; rfl]
    unfold readFull
    rw [if_pos hin]
    dsimp only
    by_cases hc : upToNul (s.input.take pn.toNat) = trailerName ∧ hdr.Size = 0
    · rw [if_pos hc]
      exact ⟨⟨fun _ => hc, fun _ => rfl⟩, fun hn2 => absurd hc hn2⟩
    · rw [if_neg hc]
      exact ⟨⟨fun hx2 => absurd hx2 (by simp), fun hx2 => absurd hx2 hc⟩,
        fun _ => rfl⟩
  case asciiSVR4CRC =>
    rw [show (if Int.tmod (p + 2) 4 > 0 then p + (4 - Int.tmod (p + 2) 4) else p) = pn by
      rw [hpn, henc]; rfl]
    unfold readFull
    rw [if_pos hin]
    dsimp only
    by_cases hc : upToNul (s.input.take pn.toNat) = trailerName ∧ hdr.Size = 0
    · rw [if_pos hc]
      exact ⟨⟨fun _ => hc, fun _ => rfl⟩, fun hn2 => absurd hc hn2⟩
    · rw [if_neg hc]
      exact ⟨⟨fun hx2 => absurd hx2 (by simp), fun hx2 => absurd hx2 hc⟩,
        fun _ => rfl⟩
  case binaryLE =>
    rw [show p + Int.tmod p 2 = pn by rw [hpn, henc]; rfl]
    unfold readFull
    rw [if_pos hin]
    dsimp only
    by_cases hc : upToNul (s.input.take pn.toNat) = trailerName ∧ hdr.Size = 0
    · rw [if_pos hc]
      exact ⟨⟨fun _ => hc, fun _ => rfl⟩, fun hn2 => absurd hc hn2⟩
    · rw [if_neg hc]
      exact ⟨⟨fun hx2 => absurd hx2 (by simp), fun hx2 => absurd hx2 hc⟩,
        fun _ => rfl⟩
  case binaryBE =>
    rw [show p + Int.tmod p 2 = pn by rw [hpn, henc]; rfl]
    unfold readFull
    rw [if_pos hin]
    dsimp only
    by_cases hc : upToNul (s.input.take pn.toNat) = trailerName ∧ hdr.Size = 0
    · rw [if_pos hc]
      exact ⟨⟨fun _ => hc, fun _ => rfl⟩, fun hn2 => absurd hc hn2⟩
    · rw [if_neg hc]
      exact ⟨⟨fun hx2 => absurd hx2 (by simp), fun hx2 => absurd hx2 hc⟩,
        fun _ => rfl⟩

/-- A reader state holding exactly a trailer name field. -/
def c5state : RState :=
  { input := trailerName ++ [0], err := none, lr := none, align := 0 }

/-- Witness for C5: an eleven-byte SUSv2 name field containing
"TRAILER!!!" with Size 0 is detected as end-of-archive. -/
theorem c5_trailer_detection_witness :
    (Reader.nextName c5state (trailerHdr .asciiSUSv2) 11).1 = .error .eofR :=
  ((c5_trailer_detection c5state (trailerHdr .asciiSUSv2) 11 rfl
    (by decide)).1).mpr (by decide)

/-! ### Claim C9 -/

set_option maxRecDepth 100000 in
/-- C9 (confirmed): Close on a Writer on which WriteHeader was never called
succeeds and writes exactly one SUSv2-encoded trailer (the zero value of
the encoding tag), and Reader.Next on the produced bytes immediately
reports end-of-archive (io.EOF with no stored failure). -/
theorem c9_empty_close :
    (WState.close (newWriter [])).1 = none ∧
    (WState.close (newWriter [])).2.out = encodeSUSv2 (trailerHdr .asciiSUSv2) ∧
    (Reader.next (initReader (WState.close (newWriter [])).2.out)).1 =
      .error .eofR ∧
    (Reader.next (initReader (WState.close (newWriter [])).2.out)).2.err =
      none := by
  decide

/-! ### Claim C10 -/

/-- A reader whose current entry is fully consumed (LimitReader at 0). -/
def c10state : RState :=
  { input := [9, 9, 9], err := none, lr := some 0, align := 0 }

/-- C10 counterexample: the claim says Read with no remaining entry leaves
the reader's state unchanged, but the first Read after an entry is fully
consumed clears the payload cursor (cr.lr = nil), so the state does
change. -/
theorem c10_state_changed :
    (RState.read c10state 5).2 ≠ c10state ∧
    (RState.read c10state 5).2.lr = none ∧ c10state.lr = some 0 := by
  decide

/-- C10 (amended): Reader.Read called when no entry is current — before the
first Next, or once the current entry's payload is consumed — returns 0
bytes and io.EOF (which is not stored as a sticky error), consumes nothing
from the underlying stream, and leaves the state unchanged except that an
exhausted payload cursor is cleared. -/
theorem c10_read_no_entry (s : RState) (k : Nat)
    (he : s.err = none) (hlr : s.lr = none ∨ s.lr = some 0) :
    RState.read s k = (([], some .eofR), { s with lr := none }) := by
  obtain ⟨inp, e, lr, al⟩ := s
  simp only at he hlr
  subst he
  rcases hlr with rfl | rfl
  · rfl
  · unfold RState.read
    dsimp only
    rw [if_pos (by norm_num)]

/-- Witness for C10 at a concrete exhausted-entry state. -/
theorem c10_read_no_entry_witness :
    RState.read c10state 5 = (([], some .eofR), { c10state with lr := none }) :=
  c10_read_no_entry c10state 5 rfl (Or.inr rfl)

/-! ### Claim C2 -/

/-- An SVR4 entry whose Namesize (3) makes (Namesize+2) % 4 = 1 ≠ 0. -/
def c2hdr : Header :=
  { Name := [97, 98], Mode := 0, DevMajor := 0, DevMinor := 0, Inode := 0,
    UID := 0, GID := 0, NLink := 1, RDevMajor := 0, RDevMinor := 0,
    ModTime := 0, Size := 0, Checksum := 0, Encoding := .asciiSVR4 }

set_option maxRecDepth 100000 in
/-- C2 (code bug): for the SVR4 entry `c2hdr` (name "ab", Size 0) the
writer emits no payload padding (the payload end is already 4-aligned),
but Reader.nextName folds the pre-padding name remainder
rem = (Namesize+2) % 4 = 1 into the payload alignment and arms a 3-byte
skip (src/reader.go line 163), so the next Next call consumes 3 bytes of
the trailer's magic and fails with ErrHeader instead of reporting
end-of-archive. -/
theorem c2_svr4_padding_bug :
    (WState.writeHeader (newWriter []) c2hdr).2.pad = 0 ∧
    (Reader.next (initReader (c1bytes c2hdr []))).1 = .ok c2hdr ∧
    (Reader.next (initReader (c1bytes c2hdr []))).2.align = 3 ∧
    (Reader.next (Reader.next (initReader (c1bytes c2hdr []))).2).1 =
      .error .header := by
  decide

/-! ### Claim C7 -/

/-- An open, error-free writer whose declared payload (6 bytes) was never
written. -/
def c7w : WState := (WState.writeHeader (newWriter []) (testHeader .asciiSUSv2)).2

set_option maxRecDepth 100000 in
/-- C7 counterexample: the claim says Close on an open, error-free Writer
writes the trailer and succeeds, but on an open, error-free writer whose
declared payload was not fully written, Close writes nothing (no trailer),
returns the "missed writing 6 bytes" error, and still marks the writer
closed. -/
theorem c7_close_unfinished :
    c7w.err = none ∧ c7w.closed = false ∧
    (WState.close c7w).1 = some (.missed 6) ∧
    (WState.close c7w).2.out = c7w.out ∧
    (WState.close c7w).2.closed = true := by
  decide

/-- C7 (amended): Close on an open, error-free Writer whose declared
payload has been fully written (and whose underlying stream accepts the
writes) flushes pending alignment padding, writes one trailer entry (Name
"TRAILER!!!", Size 0, NLink 1, epoch-zero time) in the stream's latched
encoding, and marks the writer closed; a second Close is a no-op returning
the same nil result, and Write / WriteHeader after Close fail with
ErrWriteAfterClose without touching the stream. -/
theorem c7_close_behavior (ws : WState) (b : List Nat) (h2 : Header)
    (hc : ws.closed = false) (he : ws.err = none) (hnb : ws.nb = 0)
    (hres : ws.wres = []) :
    WState.close ws =
      (none, { ws with
        out := ws.out ++ List.replicate ws.pad.toNat 0 ++
          encodeHeader (trailerHdr ws.enc),
        pad := 0, nb := 0, closed := true, first := true, err := none }) ∧
    WState.close (WState.close ws).2 = (none, (WState.close ws).2) ∧
    WState.write (WState.close ws).2 b = ((0, some .afterClose), (WState.close ws).2) ∧
    WState.writeHeader (WState.close ws).2 h2 = (some .afterClose, (WState.close ws).2) := by
  have h1 := close_clean ws hc he hnb hres
  refine ⟨h1, ?_, ?_, ?_⟩ <;> (rw [h1]; rfl)

/-- Witness for C7 on a fresh writer. -/
theorem c7_close_behavior_witness :
    WState.close (newWriter []) =
      (none, { newWriter [] with
        out := (newWriter []).out ++ List.replicate (newWriter []).pad.toNat 0 ++
          encodeHeader (trailerHdr (newWriter []).enc),
        pad := 0, nb := 0, closed := true, first := true, err := none }) ∧
    WState.close (WState.close (newWriter [])).2 =
      (none, (WState.close (newWriter [])).2) ∧
    WState.write (WState.close (newWriter [])).2 [1] =
      ((0, some .afterClose), (WState.close (newWriter [])).2) ∧
    WState.writeHeader (WState.close (newWriter [])).2 (testHeader .asciiSUSv2) =
      (some .afterClose, (WState.close (newWriter [])).2) :=
  c7_close_behavior (newWriter []) [1] (testHeader .asciiSUSv2) rfl rfl rfl rfl

/-! ### Claim C3 -/

/-- An SVR4 header with a 5-byte payload declared. -/
def c3hdr : Header :=
  { Name := [97], Mode := 0, DevMajor := 0, DevMinor := 0, Inode := 0,
    UID := 0, GID := 0, NLink := 1, RDevMajor := 0, RDevMinor := 0,
    ModTime := 0, Size := 5, Checksum := 0, Encoding := .asciiSVR4 }

/-- A writer whose first WriteHeader failed with an underlying I/O error
(the stored error is set). -/
def c3w : WState := (WState.writeHeader (newWriter [some .injected]) c3hdr).2

set_option maxRecDepth 100000 in
/-- C3 counterexample: after a Writer call has returned an (underlying
I/O) error, the claim says every subsequent call returns that same error
and performs no further I/O; but Writer.Write does not consult the stored
error: the next Write forwards its bytes to the underlying stream, returns
nil, and even overwrites the stored error with nil. -/
theorem c3_writer_not_sticky :
    (WState.writeHeader (newWriter [some .injected]) c3hdr).1 = some .injected ∧
    c3w.err = some .injected ∧
    (WState.write c3w [97, 98, 99]).1 = (3, none) ∧
    (WState.write c3w [97, 98, 99]).2.out = c3w.out ++ [97, 98, 99] ∧
    (WState.write c3w [97, 98, 99]).2.err = none := by
  decide

theorem nextName_err (s : RState) (hdr : Header) (p : Int) (e : RErr) (s2 : RState)
    (heq : Reader.nextName s hdr p = (.error e, s2)) :
    s2.err = some e ∨ e = .eofR := by
  unfold Reader.nextName at heq
  split at heq
  · rw [Prod.mk.injEq] at heq
    obtain ⟨h1, h2⟩ := heq
    subst h2
    injection h1 with h1
    subst h1
    simp_all
  · split at heq <;>
    · (try dsimp only at heq)
      split at heq <;> (try split at heq) <;>
      · rw [Prod.mk.injEq] at heq
        obtain ⟨h1, h2⟩ := heq
        subst h2
        first
          | (injection h1 with h1; subst h1; simp_all)
          | (simp at h1)

theorem nextASCIISUSv2_err (s : RState) (e : RErr) (s2 : RState)
    (heq : Reader.nextASCIISUSv2 s = (.error e, s2)) :
    s2.err = some e ∨ e = .eofR := by
  unfold Reader.nextASCIISUSv2 at heq
  dsimp only at heq
  split at heq
  · exact nextName_err _ _ _ _ _ heq
  · rw [Prod.mk.injEq] at heq
    obtain ⟨h1, h2⟩ := heq
    subst h2
    injection h1 with h1
    subst h1
    exact Or.inl rfl

theorem nextASCIISVR4_err (s : RState) (enc : EncodingType) (e : RErr) (s2 : RState)
    (heq : Reader.nextASCIISVR4 s enc = (.error e, s2)) :
    s2.err = some e ∨ e = .eofR := by
  unfold Reader.nextASCIISVR4 at heq
  dsimp only at heq
  split at heq
  · exact nextName_err _ _ _ _ _ heq
  · rw [Prod.mk.injEq] at heq
    obtain ⟨h1, h2⟩ := heq
    subst h2
    injection h1 with h1
    subst h1
    exact Or.inl rfl

theorem nextBinary_err (s : RState) (le : Bool) (e : RErr) (s2 : RState)
    (heq : Reader.nextBinary s le = (.error e, s2)) :
    s2.err = some e ∨ e = .eofR := by
  unfold Reader.nextBinary at heq
  split at heq
  · rw [Prod.mk.injEq] at heq
    obtain ⟨h1, h2⟩ := heq
    subst h2
    injection h1 with h1
    subst h1
    exact Or.inl rfl
  · exact nextName_err _ _ _ _ _ heq

theorem nextASCII_err (s : RState) (e : RErr) (s2 : RState)
    (heq : Reader.nextASCII s = (.error e, s2)) :
    s2.err = some e ∨ e = .eofR := by
  unfold Reader.nextASCII at heq
  split at heq
  · rw [Prod.mk.injEq] at heq
    obtain ⟨h1, h2⟩ := heq
    subst h2
    injection h1 with h1
    subst h1
    exact Or.inl rfl
  · dsimp only at heq
    split at heq
    · exact nextASCIISUSv2_err _ _ _ heq
    · split at heq
      · exact nextASCIISVR4_err _ _ _ _ heq
      · split at heq
        · exact nextASCIISVR4_err _ _ _ _ heq
        · rw [Prod.mk.injEq] at heq
          obtain ⟨h1, h2⟩ := heq
          subst h2
          injection h1 with h1
          subst h1
          exact Or.inl rfl

theorem next_err (s : RState) (e : RErr) (s2 : RState)
    (he : s.err = none) (heq : Reader.next s = (.error e, s2)) :
    s2.err = some e ∨ e = .eofR := by
  unfold Reader.next at heq
  rw [he] at heq
  dsimp only at heq
  split at heq
  · rw [Prod.mk.injEq] at heq
    obtain ⟨h1, h2⟩ := heq
    subst h2
    injection h1 with h1
    subst h1
    exact Or.inl rfl
  · (try dsimp only at heq)
    split at heq
    · exact nextBinary_err _ _ _ _ heq
    · split at heq
      · exact nextBinary_err _ _ _ _ heq
      · split at heq
        · exact nextASCII_err _ _ _ heq
        · rw [Prod.mk.injEq] at heq
          obtain ⟨h1, h2⟩ := heq
          subst h2
          injection h1 with h1
          subst h1
          exact Or.inl rfl

/-- C3 (amended): the Reader is sticky — once an error has been stored,
Next and Read return it unchanged without touching the state or the
underlying stream; every error Next produces (other than the end-of-archive
signal io.EOF) is stored; and the Writer's WriteHeader and Close return a
stored error without writing — Writer.Write, however, does not consult the
stored error (see the counterexample). -/
theorem c3_sticky_amended :
    (∀ (s : RState) (e : RErr), s.err = some e → Reader.next s = (.error e, s)) ∧
    (∀ (s : RState) (e : RErr) (k : Nat), s.err = some e →
      RState.read s k = (([], some e), s)) ∧
    (∀ (s : RState) (e : RErr) (s2 : RState), s.err = none →
      Reader.next s = (.error e, s2) → s2.err = some e ∨ e = .eofR) ∧
    (∀ (ws : WState) (e : WErr) (h : Header), ws.err = some e →
      ws.closed = false → WState.writeHeader ws h = (some e, ws)) ∧
    (∀ (ws : WState) (e : WErr), ws.err = some e →
      WState.close ws = (some e, ws)) := by
  refine ⟨?_, ?_, ?_, ?_, ?_⟩
  · intro s e he
    unfold Reader.next
    rw [he]
  · intro s e k he
    unfold RState.read
    rw [he]
  · intro s e s2 he heq
    exact next_err s e s2 he heq
  · intro ws e h he hc
    unfold WState.writeHeader
    rw [hc]
    simp only [Bool.false_eq_true, if_false]
    rw [if_neg (by simp [he])]
    rw [he]
  · intro ws e he
    unfold WState.close
    rw [if_pos (Or.inl (by simp [he]))]
    rw [he]

/-- A reader state with a stored ErrHeader. -/
def c3rs : RState := { input := [1, 2], err := some .header, lr := none, align := 0 }

/-- A writer state with a stored underlying error. -/
def c3ws : WState :=
  { out := [5], err := some .injected, closed := false, nb := 0, pad := 0,
    first := true, enc := .asciiSVR4, wres := [] }

/-- Witness for C3 at concrete error-holding states. -/
theorem c3_sticky_amended_witness :
    Reader.next c3rs = (.error .header, c3rs) ∧
    RState.read c3rs 4 = (([], some .header), c3rs) ∧
    ((Reader.next (initReader [])).2.err = some .eofR ∨ RErr.eofR = .eofR) ∧
    WState.writeHeader c3ws c3hdr = (some .injected, c3ws) ∧
    WState.close c3ws = (some .injected, c3ws) :=
  ⟨c3_sticky_amended.1 c3rs .header rfl,
   c3_sticky_amended.2.1 c3rs .header 4 rfl,
   c3_sticky_amended.2.2.1 (initReader []) .eofR (Reader.next (initReader [])).2
     rfl (by decide),
   c3_sticky_amended.2.2.2.1 c3ws .injected c3hdr rfl rfl,
   c3_sticky_amended.2.2.2.2 c3ws .injected rfl⟩

/-! ### C8: the two reader implementations (src/reader.go vs part_000) -/

/-- A binary-LE entry whose Namesize (3, including the NUL) is odd: the
shape on which the two nextName implementations diverge. -/
def c8hdr : Header :=
  { Name := [97, 98], Mode := 0, DevMajor := 0, DevMinor := 0, Inode := 0,
    UID := 0, GID := 0, NLink := 0, RDevMajor := 0, RDevMinor := 0,
    ModTime := 0, Size := 0, Checksum := 0, Encoding := .binaryLE }

/-- The archive the package's own Writer produces for `c8hdr` with no
payload: WriteHeader; Close. -/
def c8bytes : List Nat :=
  (WState.close (WState.writeHeader (newWriter []) c8hdr).2).2.out

/-- Inversion of a successful io.ReadFull: the bytes are the prefix and
the remainder is the suffix of the input. -/
theorem readFull_inv {n : Nat} {input bs rest : List Nat}
    (h : readFull n input = .ok (bs, rest)) :
    bs = input.take n ∧ rest = input.drop n := by
  unfold readFull at h
  split at h
  · simp only [Except.ok.injEq, Prod.mk.injEq] at h
    exact ⟨h.1.symm, h.2.symm⟩
  · split at h <;> cases h

/-- Advancing a drop-equation across one field of known length. -/
theorem drop_chain {xs m T : List Nat} {k n : Nat}
    (h : xs.drop k = m ++ T) (hm : m.length = n) :
    xs.drop (k + n) = T := by
  rw [← List.drop_drop, h, List.drop_left' hm]

/-- The digit-run core of strconv.ParseInt evaluated on a rendered digit
list. -/
theorem parseDigitsGo_digits {b : Nat} (hb16 : b ≤ 16)
    (ds : List Nat) (hne : ds ≠ []) (hmem : ∀ d ∈ ds, d < b) :
    parseDigitsGo b (ds.map digitToChar) = some (digitsToNat b ds) := by
  unfold parseDigitsGo
  rw [if_pos]
  · congr 1
    rw [List.map_map]
    have he : ds.map ((fun c => (digitVal b c).getD 0) ∘ digitToChar) = ds.map id := by
      apply List.map_congr_left
      intro a ha
      simp [Function.comp, digitVal_digitToChar (hmem a ha) hb16]
    rw [he, List.map_id]
  · constructor
    · simp only [List.length_map, ne_eq, List.length_eq_zero]
      exact hne
    · rw [List.all_eq_true]
      intro c hc
      obtain ⟨d, hd, rfl⟩ := List.mem_map.mp hc
      rw [digitVal_digitToChar (hmem d hd) hb16]
      rfl

/-- A digit list whose length keeps its value inside int64 range. -/
theorem digitsToNat_lt_of_le {b : Nat} (hb : 2 ≤ b) (ds : List Nat)
    (hmem : ∀ d ∈ ds, d < b) (hpow : b ^ ds.length ≤ 2 ^ 63) :
    digitsToNat b ds < 2 ^ 63 :=
  lt_of_lt_of_le (digitsToNat_lt hb ds hmem) hpow

/-- strconv.ParseInt evaluated on a rendered digit list. -/
theorem parseIntGo_digits {b : Nat} (hb : 2 ≤ b) (hb16 : b ≤ 16)
    (ds : List Nat) (hne : ds ≠ []) (hmem : ∀ d ∈ ds, d < b)
    (hlt : digitsToNat b ds < 2 ^ 63) :
    parseIntGo b (ds.map digitToChar) = some ((digitsToNat b ds : Nat) : Int) := by
  cases ds with
  | nil => exact absurd rfl hne
  | cons d tl =>
    have h48 := digitToChar_ge_48 d
    simp only [List.map_cons]
    unfold parseIntGo
    dsimp only
    rw [if_neg (by omega), if_neg (by omega)]
    rw [← List.map_cons digitToChar d tl]
    rw [parseDigitsGo_digits hb16 (d :: tl) hne hmem]
    dsimp only
    rw [if_pos (by omega)]

/-- The two nextName implementations agree whenever the encoding is not
binary or the pre-padding name length is even (the SVR4 and SUSv2 arms are
textually identical; the binary arms differ only in folding `p % 2` into
the payload alignment). -/
theorem nextName_agree (s : RState) (hdr : Header) (p : Int)
    (h : (hdr.Encoding = .binaryLE ∨ hdr.Encoding = .binaryBE) → Int.tmod p 2 = 0) :
    Reader.nextName s hdr p = ReaderU.nextName s hdr p := by
  obtain ⟨inp, err, lr, al⟩ := s
  cases err with
  | some e => rfl
  | none =>
    unfold Reader.nextName ReaderU.nextName
    dsimp only
    cases henc : hdr.Encoding with
    | binaryLE =>
      rw [h (Or.inl henc)]
      norm_num
    | binaryBE =>
      rw [h (Or.inr henc)]
      norm_num
    | asciiSUSv2 => rfl
    | asciiSVR4 => rfl
    | asciiSVR4CRC => rfl

/-- The two nextBinary implementations agree whenever the record's
Namesize word is even. -/
theorem nextBinary_agree (s : RState) (le : Bool)
    (h : get16 le (s.input.take 24) 9 % 2 = 0) :
    Reader.nextBinary s le = ReaderU.nextBinary s le := by
  unfold Reader.nextBinary ReaderU.nextBinary
  cases hr : readFull 24 s.input with
  | error e => rfl
  | ok pr =>
    obtain ⟨bs, rest⟩ := pr
    obtain ⟨hbs, -⟩ := readFull_inv hr
    subst hbs
    dsimp only
    apply nextName_agree
    intro _
    rw [tmod_cast2, h]
    rfl

/-- A base-`b` digit-value field of exact width `w` (entries are values of
single digit characters). -/
def digitField (b w : Nat) (ds : List Nat) : Prop :=
  ds.length = w ∧ ∀ d ∈ ds, d < b

instance decDigitField (b w : Nat) (ds : List Nat) : Decidable (digitField b w ds) := by
  unfold digitField
  infer_instance

/-- The two nextASCIISUSv2 implementations agree on any input whose ten
numeric fields are exact-width octal digit runs (as every archive the
Writer emits has): Fscanf scanning and fixed-record ParseInt parsing then
read the same values and leave the same remaining input. -/
theorem nextASCIISUSv2_agree (s : RState)
    (d1 d2 d3 d4 d5 d6 d7 d8 d9 d10 rest : List Nat)
    (h1 : digitField 8 6 d1) (h2 : digitField 8 6 d2) (h3 : digitField 8 6 d3)
    (h4 : digitField 8 6 d4) (h5 : digitField 8 6 d5) (h6 : digitField 8 6 d6)
    (h7 : digitField 8 6 d7) (h8 : digitField 8 11 d8) (h9 : digitField 8 6 d9)
    (h10 : digitField 8 11 d10)
    (hin : s.input =
      d1.map digitToChar ++ (d2.map digitToChar ++ (d3.map digitToChar ++
      (d4.map digitToChar ++ (d5.map digitToChar ++ (d6.map digitToChar ++
      (d7.map digitToChar ++ (d8.map digitToChar ++ (d9.map digitToChar ++
      (d10.map digitToChar ++ rest)))))))))) :
    Reader.nextASCIISUSv2 s = ReaderU.nextASCIISUSv2 s := by
  obtain ⟨l1, m1⟩ := h1
  obtain ⟨l2, m2⟩ := h2
  obtain ⟨l3, m3⟩ := h3
  obtain ⟨l4, m4⟩ := h4
  obtain ⟨l5, m5⟩ := h5
  obtain ⟨l6, m6⟩ := h6
  obtain ⟨l7, m7⟩ := h7
  obtain ⟨l8, m8⟩ := h8
  obtain ⟨l9, m9⟩ := h9
  obtain ⟨l10, m10⟩ := h10
  have ne1 : d1 ≠ [] := by intro h; rw [h] at l1; simp at l1
  have ne2 : d2 ≠ [] := by intro h; rw [h] at l2; simp at l2
  have ne3 : d3 ≠ [] := by intro h; rw [h] at l3; simp at l3
  have ne4 : d4 ≠ [] := by intro h; rw [h] at l4; simp at l4
  have ne5 : d5 ≠ [] := by intro h; rw [h] at l5; simp at l5
  have ne6 : d6 ≠ [] := by intro h; rw [h] at l6; simp at l6
  have ne7 : d7 ≠ [] := by intro h; rw [h] at l7; simp at l7
  have ne8 : d8 ≠ [] := by intro h; rw [h] at l8; simp at l8
  have ne9 : d9 ≠ [] := by intro h; rw [h] at l9; simp at l9
  have ne10 : d10 ≠ [] := by intro h; rw [h] at l10; simp at l10
  obtain ⟨n1, hn1⟩ : ∃ x, x = d1.map digitToChar := ⟨_, rfl⟩
  obtain ⟨n2, hn2⟩ : ∃ x, x = d2.map digitToChar := ⟨_, rfl⟩
  obtain ⟨n3, hn3⟩ : ∃ x, x = d3.map digitToChar := ⟨_, rfl⟩
  obtain ⟨n4, hn4⟩ : ∃ x, x = d4.map digitToChar := ⟨_, rfl⟩
  obtain ⟨n5, hn5⟩ : ∃ x, x = d5.map digitToChar := ⟨_, rfl⟩
  obtain ⟨n6, hn6⟩ : ∃ x, x = d6.map digitToChar := ⟨_, rfl⟩
  obtain ⟨n7, hn7⟩ : ∃ x, x = d7.map digitToChar := ⟨_, rfl⟩
  obtain ⟨n8, hn8⟩ : ∃ x, x = d8.map digitToChar := ⟨_, rfl⟩
  obtain ⟨n9, hn9⟩ : ∃ x, x = d9.map digitToChar := ⟨_, rfl⟩
  obtain ⟨n10, hn10⟩ : ∃ x, x = d10.map digitToChar := ⟨_, rfl⟩
  have hln1 : n1.length = 6 := by rw [hn1]; simp [l1]
  have hln2 : n2.length = 6 := by rw [hn2]; simp [l2]
  have hln3 : n3.length = 6 := by rw [hn3]; simp [l3]
  have hln4 : n4.length = 6 := by rw [hn4]; simp [l4]
  have hln5 : n5.length = 6 := by rw [hn5]; simp [l5]
  have hln6 : n6.length = 6 := by rw [hn6]; simp [l6]
  have hln7 : n7.length = 6 := by rw [hn7]; simp [l7]
  have hln8 : n8.length = 11 := by rw [hn8]; simp [l8]
  have hln9 : n9.length = 6 := by rw [hn9]; simp [l9]
  have hln10 : n10.length = 11 := by rw [hn10]; simp [l10]
  obtain ⟨xs, hxs⟩ : ∃ x, x =
      n1 ++ (n2 ++ (n3 ++ (n4 ++ (n5 ++ (n6 ++ (n7 ++ (n8 ++ (n9 ++
        (n10 ++ ([] : List Nat)))))))))) := ⟨_, rfl⟩
  unfold Reader.nextASCIISUSv2 ReaderU.nextASCIISUSv2
  dsimp only
  rw [hin]
  rw [scan1_digits (by norm_num) (by norm_num) d1 _ ne1 l1 m1]
  dsimp only
  rw [scan1_digits (by norm_num) (by norm_num) d2 _ ne2 l2 m2]
  dsimp only
  rw [scan1_digits (by norm_num) (by norm_num) d3 _ ne3 l3 m3]
  dsimp only
  rw [scan1_digits (by norm_num) (by norm_num) d4 _ ne4 l4 m4]
  dsimp only
  rw [scan1_digits (by norm_num) (by norm_num) d5 _ ne5 l5 m5]
  dsimp only
  rw [scan1_digits (by norm_num) (by norm_num) d6 _ ne6 l6 m6]
  dsimp only
  rw [scan1_digits (by norm_num) (by norm_num) d7 _ ne7 l7 m7]
  dsimp only
  rw [scan1_digits (by norm_num) (by norm_num) d8 _ ne8 l8 m8]
  dsimp only
  rw [scan1_digits (by norm_num) (by norm_num) d9 _ ne9 l9 m9]
  dsimp only
  rw [scan1_digits (by norm_num) (by norm_num) d10 _ ne10 l10 m10]
  dsimp only
  rw [if_pos rfl]
  rw [show d1.map digitToChar ++ (d2.map digitToChar ++ (d3.map digitToChar ++
      (d4.map digitToChar ++ (d5.map digitToChar ++ (d6.map digitToChar ++
      (d7.map digitToChar ++ (d8.map digitToChar ++ (d9.map digitToChar ++
      (d10.map digitToChar ++ rest))))))))) = xs ++ rest from by
    rw [hxs, hn1, hn2, hn3, hn4, hn5, hn6, hn7, hn8, hn9, hn10]
    simp [List.append_assoc]]
  rw [readFull_ok 70 xs rest (by
    rw [hxs]
    simp only [List.length_append, List.length_nil, hln1, hln2, hln3, hln4,
      hln5, hln6, hln7, hln8, hln9, hln10])]
  dsimp only
  have e0 : xs.drop 0 = n1 ++ (n2 ++ (n3 ++ (n4 ++ (n5 ++ (n6 ++ (n7 ++
      (n8 ++ (n9 ++ (n10 ++ ([] : List Nat)))))))))) := by
    rw [List.drop_zero]; exact hxs
  have e6 : List.drop 6 xs = _ := drop_chain e0 hln1
  have e12 : List.drop 12 xs = _ := drop_chain e6 hln2
  have e18 : List.drop 18 xs = _ := drop_chain e12 hln3
  have e24 : List.drop 24 xs = _ := drop_chain e18 hln4
  have e30 : List.drop 30 xs = _ := drop_chain e24 hln5
  have e36 : List.drop 36 xs = _ := drop_chain e30 hln6
  have e42 : List.drop 42 xs = _ := drop_chain e36 hln7
  have e53 : List.drop 53 xs = _ := drop_chain e42 hln8
  have e59 : List.drop 59 xs = _ := drop_chain e53 hln9
  rw [e0, List.take_left' hln1]
  rw [e6, List.take_left' hln2]
  rw [e12, List.take_left' hln3]
  rw [e18, List.take_left' hln4]
  rw [e24, List.take_left' hln5]
  rw [e30, List.take_left' hln6]
  rw [e36, List.take_left' hln7]
  rw [e42, List.take_left' hln8]
  rw [e53, List.take_left' hln9]
  rw [e59, List.take_left' hln10]
  rw [hn1, parseIntGo_digits (by norm_num) (by norm_num) d1 ne1 m1
    (digitsToNat_lt_of_le (by norm_num) d1 m1 (by rw [l1]; norm_num))]
  rw [hn2, parseIntGo_digits (by norm_num) (by norm_num) d2 ne2 m2
    (digitsToNat_lt_of_le (by norm_num) d2 m2 (by rw [l2]; norm_num))]
  rw [hn3, parseIntGo_digits (by norm_num) (by norm_num) d3 ne3 m3
    (digitsToNat_lt_of_le (by norm_num) d3 m3 (by rw [l3]; norm_num))]
  rw [hn4, parseIntGo_digits (by norm_num) (by norm_num) d4 ne4 m4
    (digitsToNat_lt_of_le (by norm_num) d4 m4 (by rw [l4]; norm_num))]
  rw [hn5, parseIntGo_digits (by norm_num) (by norm_num) d5 ne5 m5
    (digitsToNat_lt_of_le (by norm_num) d5 m5 (by rw [l5]; norm_num))]
  rw [hn6, parseIntGo_digits (by norm_num) (by norm_num) d6 ne6 m6
    (digitsToNat_lt_of_le (by norm_num) d6 m6 (by rw [l6]; norm_num))]
  rw [hn7, parseIntGo_digits (by norm_num) (by norm_num) d7 ne7 m7
    (digitsToNat_lt_of_le (by norm_num) d7 m7 (by rw [l7]; norm_num))]
  rw [hn8, parseIntGo_digits (by norm_num) (by norm_num) d8 ne8 m8
    (digitsToNat_lt_of_le (by norm_num) d8 m8 (by rw [l8]; norm_num))]
  rw [hn9, parseIntGo_digits (by norm_num) (by norm_num) d9 ne9 m9
    (digitsToNat_lt_of_le (by norm_num) d9 m9 (by rw [l9]; norm_num))]
  rw [hn10, parseIntGo_digits (by norm_num) (by norm_num) d10 ne10 m10
    (digitsToNat_lt_of_le (by norm_num) d10 m10 (by rw [l10]; norm_num))]
  dsimp only
  apply nextName_agree
  intro hor
  rcases hor with h | h <;> simp at h

/-- The two nextASCIISVR4 implementations agree on any input whose
thirteen numeric fields are exact 8-wide hex digit runs, for the two SVR4
encodings. -/
theorem nextASCIISVR4_agree (s : RState) (enc : EncodingType)
    (henc : enc = .asciiSVR4 ∨ enc = .asciiSVR4CRC)
    (d1 d2 d3 d4 d5 d6 d7 d8 d9 d10 d11 d12 d13 rest : List Nat)
    (h1 : digitField 16 8 d1) (h2 : digitField 16 8 d2) (h3 : digitField 16 8 d3)
    (h4 : digitField 16 8 d4) (h5 : digitField 16 8 d5) (h6 : digitField 16 8 d6)
    (h7 : digitField 16 8 d7) (h8 : digitField 16 8 d8) (h9 : digitField 16 8 d9)
    (h10 : digitField 16 8 d10) (h11 : digitField 16 8 d11)
    (h12 : digitField 16 8 d12) (h13 : digitField 16 8 d13)
    (hin : s.input =
      d1.map digitToChar ++ (d2.map digitToChar ++ (d3.map digitToChar ++
      (d4.map digitToChar ++ (d5.map digitToChar ++ (d6.map digitToChar ++
      (d7.map digitToChar ++ (d8.map digitToChar ++ (d9.map digitToChar ++
      (d10.map digitToChar ++ (d11.map digitToChar ++ (d12.map digitToChar ++
      (d13.map digitToChar ++ rest))))))))))))) :
    Reader.nextASCIISVR4 s enc = ReaderU.nextASCIISVR4 s enc := by
  obtain ⟨l1, m1⟩ := h1
  obtain ⟨l2, m2⟩ := h2
  obtain ⟨l3, m3⟩ := h3
  obtain ⟨l4, m4⟩ := h4
  obtain ⟨l5, m5⟩ := h5
  obtain ⟨l6, m6⟩ := h6
  obtain ⟨l7, m7⟩ := h7
  obtain ⟨l8, m8⟩ := h8
  obtain ⟨l9, m9⟩ := h9
  obtain ⟨l10, m10⟩ := h10
  obtain ⟨l11, m11⟩ := h11
  obtain ⟨l12, m12⟩ := h12
  obtain ⟨l13, m13⟩ := h13
  have ne1 : d1 ≠ [] := by intro h; rw [h] at l1; simp at l1
  have ne2 : d2 ≠ [] := by intro h; rw [h] at l2; simp at l2
  have ne3 : d3 ≠ [] := by intro h; rw [h] at l3; simp at l3
  have ne4 : d4 ≠ [] := by intro h; rw [h] at l4; simp at l4
  have ne5 : d5 ≠ [] := by intro h; rw [h] at l5; simp at l5
  have ne6 : d6 ≠ [] := by intro h; rw [h] at l6; simp at l6
  have ne7 : d7 ≠ [] := by intro h; rw [h] at l7; simp at l7
  have ne8 : d8 ≠ [] := by intro h; rw [h] at l8; simp at l8
  have ne9 : d9 ≠ [] := by intro h; rw [h] at l9; simp at l9
  have ne10 : d10 ≠ [] := by intro h; rw [h] at l10; simp at l10
  have ne11 : d11 ≠ [] := by intro h; rw [h] at l11; simp at l11
  have ne12 : d12 ≠ [] := by intro h; rw [h] at l12; simp at l12
  have ne13 : d13 ≠ [] := by intro h; rw [h] at l13; simp at l13
  obtain ⟨n1, hn1⟩ : ∃ x, x = d1.map digitToChar := ⟨_, rfl⟩
  obtain ⟨n2, hn2⟩ : ∃ x, x = d2.map digitToChar := ⟨_, rfl⟩
  obtain ⟨n3, hn3⟩ : ∃ x, x = d3.map digitToChar := ⟨_, rfl⟩
  obtain ⟨n4, hn4⟩ : ∃ x, x = d4.map digitToChar := ⟨_, rfl⟩
  obtain ⟨n5, hn5⟩ : ∃ x, x = d5.map digitToChar := ⟨_, rfl⟩
  obtain ⟨n6, hn6⟩ : ∃ x, x = d6.map digitToChar := ⟨_, rfl⟩
  obtain ⟨n7, hn7⟩ : ∃ x, x = d7.map digitToChar := ⟨_, rfl⟩
  obtain ⟨n8, hn8⟩ : ∃ x, x = d8.map digitToChar := ⟨_, rfl⟩
  obtain ⟨n9, hn9⟩ : ∃ x, x = d9.map digitToChar := ⟨_, rfl⟩
  obtain ⟨n10, hn10⟩ : ∃ x, x = d10.map digitToChar := ⟨_, rfl⟩
  obtain ⟨n11, hn11⟩ : ∃ x, x = d11.map digitToChar := ⟨_, rfl⟩
  obtain ⟨n12, hn12⟩ : ∃ x, x = d12.map digitToChar := ⟨_, rfl⟩
  obtain ⟨n13, hn13⟩ : ∃ x, x = d13.map digitToChar := ⟨_, rfl⟩
  have hln1 : n1.length = 8 := by rw [hn1]; simp [l1]
  have hln2 : n2.length = 8 := by rw [hn2]; simp [l2]
  have hln3 : n3.length = 8 := by rw [hn3]; simp [l3]
  have hln4 : n4.length = 8 := by rw [hn4]; simp [l4]
  have hln5 : n5.length = 8 := by rw [hn5]; simp [l5]
  have hln6 : n6.length = 8 := by rw [hn6]; simp [l6]
  have hln7 : n7.length = 8 := by rw [hn7]; simp [l7]
  have hln8 : n8.length = 8 := by rw [hn8]; simp [l8]
  have hln9 : n9.length = 8 := by rw [hn9]; simp [l9]
  have hln10 : n10.length = 8 := by rw [hn10]; simp [l10]
  have hln11 : n11.length = 8 := by rw [hn11]; simp [l11]
  have hln12 : n12.length = 8 := by rw [hn12]; simp [l12]
  have hln13 : n13.length = 8 := by rw [hn13]; simp [l13]
  obtain ⟨xs, hxs⟩ : ∃ x, x =
      n1 ++ (n2 ++ (n3 ++ (n4 ++ (n5 ++ (n6 ++ (n7 ++ (n8 ++ (n9 ++ (n10 ++
        (n11 ++ (n12 ++ (n13 ++ ([] : List Nat))))))))))))) := ⟨_, rfl⟩
  unfold Reader.nextASCIISVR4 ReaderU.nextASCIISVR4
  dsimp only
  rw [hin]
  rw [scan1_digits (by norm_num) (by norm_num) d1 _ ne1 l1 m1]
  dsimp only
  rw [scan1_digits (by norm_num) (by norm_num) d2 _ ne2 l2 m2]
  dsimp only
  rw [scan1_digits (by norm_num) (by norm_num) d3 _ ne3 l3 m3]
  dsimp only
  rw [scan1_digits (by norm_num) (by norm_num) d4 _ ne4 l4 m4]
  dsimp only
  rw [scan1_digits (by norm_num) (by norm_num) d5 _ ne5 l5 m5]
  dsimp only
  rw [scan1_digits (by norm_num) (by norm_num) d6 _ ne6 l6 m6]
  dsimp only
  rw [scan1_digits (by norm_num) (by norm_num) d7 _ ne7 l7 m7]
  dsimp only
  rw [scan1_digits (by norm_num) (by norm_num) d8 _ ne8 l8 m8]
  dsimp only
  rw [scan1_digits (by norm_num) (by norm_num) d9 _ ne9 l9 m9]
  dsimp only
  rw [scan1_digits (by norm_num) (by norm_num) d10 _ ne10 l10 m10]
  dsimp only
  rw [scan1_digits (by norm_num) (by norm_num) d11 _ ne11 l11 m11]
  dsimp only
  rw [scan1_digits (by norm_num) (by norm_num) d12 _ ne12 l12 m12]
  dsimp only
  rw [scan1_digits (by norm_num) (by norm_num) d13 _ ne13 l13 m13]
  dsimp only
  rw [if_pos rfl]
  rw [show d1.map digitToChar ++ (d2.map digitToChar ++ (d3.map digitToChar ++
      (d4.map digitToChar ++ (d5.map digitToChar ++ (d6.map digitToChar ++
      (d7.map digitToChar ++ (d8.map digitToChar ++ (d9.map digitToChar ++
      (d10.map digitToChar ++ (d11.map digitToChar ++ (d12.map digitToChar ++
      (d13.map digitToChar ++ rest)))))))))))) = xs ++ rest from by
    rw [hxs, hn1, hn2, hn3, hn4, hn5, hn6, hn7, hn8, hn9, hn10, hn11, hn12, hn13]
    simp [List.append_assoc]]
  rw [readFull_ok 104 xs rest (by
    rw [hxs]
    simp only [List.length_append, List.length_nil, hln1, hln2, hln3, hln4,
      hln5, hln6, hln7, hln8, hln9, hln10, hln11, hln12, hln13])]
  dsimp only
  have e0 : xs.drop 0 = n1 ++ (n2 ++ (n3 ++ (n4 ++ (n5 ++ (n6 ++ (n7 ++ (n8 ++
      (n9 ++ (n10 ++ (n11 ++ (n12 ++ (n13 ++ ([] : List Nat))))))))))))) := by
    rw [List.drop_zero]; exact hxs
  have e8 : List.drop 8 xs = _ := drop_chain e0 hln1
  have e16 : List.drop 16 xs = _ := drop_chain e8 hln2
  have e24 : List.drop 24 xs = _ := drop_chain e16 hln3
  have e32 : List.drop 32 xs = _ := drop_chain e24 hln4
  have e40 : List.drop 40 xs = _ := drop_chain e32 hln5
  have e48 : List.drop 48 xs = _ := drop_chain e40 hln6
  have e56 : List.drop 56 xs = _ := drop_chain e48 hln7
  have e64 : List.drop 64 xs = _ := drop_chain e56 hln8
  have e72 : List.drop 72 xs = _ := drop_chain e64 hln9
  have e80 : List.drop 80 xs = _ := drop_chain e72 hln10
  have e88 : List.drop 88 xs = _ := drop_chain e80 hln11
  have e96 : List.drop 96 xs = _ := drop_chain e88 hln12
  rw [e0, List.take_left' hln1]
  rw [e8, List.take_left' hln2]
  rw [e16, List.take_left' hln3]
  rw [e24, List.take_left' hln4]
  rw [e32, List.take_left' hln5]
  rw [e40, List.take_left' hln6]
  rw [e48, List.take_left' hln7]
  rw [e56, List.take_left' hln8]
  rw [e64, List.take_left' hln9]
  rw [e72, List.take_left' hln10]
  rw [e80, List.take_left' hln11]
  rw [e88, List.take_left' hln12]
  rw [e96, List.take_left' hln13]
  rw [hn1, parseIntGo_digits (by norm_num) (by norm_num) d1 ne1 m1
    (digitsToNat_lt_of_le (by norm_num) d1 m1 (by rw [l1]; norm_num))]
  rw [hn2, parseIntGo_digits (by norm_num) (by norm_num) d2 ne2 m2
    (digitsToNat_lt_of_le (by norm_num) d2 m2 (by rw [l2]; norm_num))]
  rw [hn3, parseIntGo_digits (by norm_num) (by norm_num) d3 ne3 m3
    (digitsToNat_lt_of_le (by norm_num) d3 m3 (by rw [l3]; norm_num))]
  rw [hn4, parseIntGo_digits (by norm_num) (by norm_num) d4 ne4 m4
    (digitsToNat_lt_of_le (by norm_num) d4 m4 (by rw [l4]; norm_num))]
  rw [hn5, parseIntGo_digits (by norm_num) (by norm_num) d5 ne5 m5
    (digitsToNat_lt_of_le (by norm_num) d5 m5 (by rw [l5]; norm_num))]
  rw [hn6, parseIntGo_digits (by norm_num) (by norm_num) d6 ne6 m6
    (digitsToNat_lt_of_le (by norm_num) d6 m6 (by rw [l6]; norm_num))]
  rw [hn7, parseIntGo_digits (by norm_num) (by norm_num) d7 ne7 m7
    (digitsToNat_lt_of_le (by norm_num) d7 m7 (by rw [l7]; norm_num))]
  rw [hn8, parseIntGo_digits (by norm_num) (by norm_num) d8 ne8 m8
    (digitsToNat_lt_of_le (by norm_num) d8 m8 (by rw [l8]; norm_num))]
  rw [hn9, parseIntGo_digits (by norm_num) (by norm_num) d9 ne9 m9
    (digitsToNat_lt_of_le (by norm_num) d9 m9 (by rw [l9]; norm_num))]
  rw [hn10, parseIntGo_digits (by norm_num) (by norm_num) d10 ne10 m10
    (digitsToNat_lt_of_le (by norm_num) d10 m10 (by rw [l10]; norm_num))]
  rw [hn11, parseIntGo_digits (by norm_num) (by norm_num) d11 ne11 m11
    (digitsToNat_lt_of_le (by norm_num) d11 m11 (by rw [l11]; norm_num))]
  rw [hn12, parseIntGo_digits (by norm_num) (by norm_num) d12 ne12 m12
    (digitsToNat_lt_of_le (by norm_num) d12 m12 (by rw [l12]; norm_num))]
  rw [hn13, parseIntGo_digits (by norm_num) (by norm_num) d13 ne13 m13
    (digitsToNat_lt_of_le (by norm_num) d13 m13 (by rw [l13]; norm_num))]
  dsimp only
  apply nextName_agree
  intro hor
  rcases henc with he | he <;> subst he <;> rcases hor with h | h <;> simp at h

set_option maxRecDepth 100000 in
/-- C8 counterexample: the two reader implementations are not equivalent.
On the package's own binary-LE archive of a zero-size entry named "ab"
(odd Namesize 3), src/reader.go's Reader reaches the trailer with its
second Next and reports end-of-archive (io.EOF), while part_000's Reader
arms a spurious one-byte payload alignment (it folds the name remainder
`p % 2` into `Size % 2`), consumes the trailer magic off by one byte and
reports ErrHeader. -/
theorem c8_readers_diverge :
    (Reader.next (Reader.next (initReader c8bytes)).2).1 = .error .eofR ∧
    (ReaderU.next (ReaderU.next (initReader c8bytes)).2).1 = .error .header := by
  decide

/-- C8 (amended): the decode paths of src/reader.go and src/unnamed/part_000
(whose Next, nextASCII and Read wrappers are textually identical) agree —
on nextName whenever the encoding is not binary or the pre-padding name
length is even; on nextBinary whenever the record's Namesize word is even;
and on nextASCIISUSv2 / nextASCIISVR4 whenever the numeric header fields
are exact-width digit runs, as in every archive the package's Writer
emits.  They are not equivalent in general (see the counterexample). -/
theorem c8_readers_agree :
    (∀ (s : RState) (hdr : Header) (p : Int),
      ((hdr.Encoding = .binaryLE ∨ hdr.Encoding = .binaryBE) → Int.tmod p 2 = 0) →
      Reader.nextName s hdr p = ReaderU.nextName s hdr p) ∧
    (∀ (s : RState) (le : Bool),
      get16 le (s.input.take 24) 9 % 2 = 0 →
      Reader.nextBinary s le = ReaderU.nextBinary s le) ∧
    (∀ (s : RState) (d1 d2 d3 d4 d5 d6 d7 d8 d9 d10 rest : List Nat),
      digitField 8 6 d1 → digitField 8 6 d2 → digitField 8 6 d3 →
      digitField 8 6 d4 → digitField 8 6 d5 → digitField 8 6 d6 →
      digitField 8 6 d7 → digitField 8 11 d8 → digitField 8 6 d9 →
      digitField 8 11 d10 →
      s.input =
        d1.map digitToChar ++ (d2.map digitToChar ++ (d3.map digitToChar ++
        (d4.map digitToChar ++ (d5.map digitToChar ++ (d6.map digitToChar ++
        (d7.map digitToChar ++ (d8.map digitToChar ++ (d9.map digitToChar ++
        (d10.map digitToChar ++ rest))))))))) →
      Reader.nextASCIISUSv2 s = ReaderU.nextASCIISUSv2 s) ∧
    (∀ (s : RState) (enc : EncodingType),
      (enc = .asciiSVR4 ∨ enc = .asciiSVR4CRC) →
      ∀ (d1 d2 d3 d4 d5 d6 d7 d8 d9 d10 d11 d12 d13 rest : List Nat),
      digitField 16 8 d1 → digitField 16 8 d2 → digitField 16 8 d3 →
      digitField 16 8 d4 → digitField 16 8 d5 → digitField 16 8 d6 →
      digitField 16 8 d7 → digitField 16 8 d8 → digitField 16 8 d9 →
      digitField 16 8 d10 → digitField 16 8 d11 → digitField 16 8 d12 →
      digitField 16 8 d13 →
      s.input =
        d1.map digitToChar ++ (d2.map digitToChar ++ (d3.map digitToChar ++
        (d4.map digitToChar ++ (d5.map digitToChar ++ (d6.map digitToChar ++
        (d7.map digitToChar ++ (d8.map digitToChar ++ (d9.map digitToChar ++
        (d10.map digitToChar ++ (d11.map digitToChar ++ (d12.map digitToChar ++
        (d13.map digitToChar ++ rest)))))))))))) →
      Reader.nextASCIISVR4 s enc = ReaderU.nextASCIISVR4 s enc) :=
  ⟨nextName_agree, nextBinary_agree, nextASCIISUSv2_agree, nextASCIISVR4_agree⟩

/-- An all-zero rendered octal field of width 6. -/
def z6 : List Nat := (List.replicate 6 0).map digitToChar

/-- An all-zero rendered octal field of width 11. -/
def z11 : List Nat := (List.replicate 11 0).map digitToChar

/-- An all-zero rendered hex field of width 8. -/
def z8 : List Nat := (List.replicate 8 0).map digitToChar

/-- An all-zero SUSv2 numeric block (the 70 bytes after the magic). -/
def c8in2 : List Nat :=
  z6 ++ (z6 ++ (z6 ++ (z6 ++ (z6 ++ (z6 ++ (z6 ++ (z11 ++ (z6 ++ (z11 ++
    ([] : List Nat))))))))))

/-- An all-zero SVR4 numeric block (the 104 bytes after the magic). -/
def c8in4 : List Nat :=
  z8 ++ (z8 ++ (z8 ++ (z8 ++ (z8 ++ (z8 ++ (z8 ++ (z8 ++ (z8 ++ (z8 ++ (z8 ++
    (z8 ++ (z8 ++ ([] : List Nat)))))))))))))

/-- Witness for C8 at concrete inputs: an even name length for nextName, an
even Namesize word for nextBinary, and all-zero exact-width digit fields
for the two ASCII decoders. -/
theorem c8_readers_agree_witness :
    Reader.nextName (initReader []) c8hdr 4 = ReaderU.nextName (initReader []) c8hdr 4 ∧
    Reader.nextBinary (initReader (List.replicate 30 0)) true =
      ReaderU.nextBinary (initReader (List.replicate 30 0)) true ∧
    Reader.nextASCIISUSv2 (initReader c8in2) = ReaderU.nextASCIISUSv2 (initReader c8in2) ∧
    Reader.nextASCIISVR4 (initReader c8in4) .asciiSVR4 =
      ReaderU.nextASCIISVR4 (initReader c8in4) .asciiSVR4 :=
  ⟨c8_readers_agree.1 (initReader []) c8hdr 4 (fun _ => by decide),
   c8_readers_agree.2.1 (initReader (List.replicate 30 0)) true (by decide),
   c8_readers_agree.2.2.1 (initReader c8in2) (List.replicate 6 0)
     (List.replicate 6 0) (List.replicate 6 0) (List.replicate 6 0)
     (List.replicate 6 0) (List.replicate 6 0) (List.replicate 6 0)
     (List.replicate 11 0) (List.replicate 6 0) (List.replicate 11 0) []
     (by decide) (by decide) (by decide) (by decide) (by decide) (by decide)
     (by decide) (by decide) (by decide) (by decide) rfl,
   c8_readers_agree.2.2.2 (initReader c8in4) .asciiSVR4 (Or.inl rfl)
     (List.replicate 8 0) (List.replicate 8 0) (List.replicate 8 0)
     (List.replicate 8 0) (List.replicate 8 0) (List.replicate 8 0)
     (List.replicate 8 0) (List.replicate 8 0) (List.replicate 8 0)
     (List.replicate 8 0) (List.replicate 8 0) (List.replicate 8 0)
     (List.replicate 8 0) []
     (by decide) (by decide) (by decide) (by decide) (by decide) (by decide)
     (by decide) (by decide) (by decide) (by decide) (by decide) (by decide)
     (by decide) rfl⟩

end Gocpio
